import Mathlib

/-!
Verification development for the `todos` task store.

Shallow embedding of the core of the repository:
* the versioned task mutation protocol (`src/db/tasks.ts`: `updateTask`),
* the lease lock state machine (`lockTask`, `completeTask`, `isLockExpired`),
* the dependency graph guard (`addDependency`, `wouldCreateCycle`),
* the push pass of the sync engine (`src/lib/claude-tasks.ts`:
  `pushToClaudeTaskList`) and its helpers (`src/lib/sync-utils.ts`),
* the listing path (`listTasks`, `clearExpiredLocks`).

Conventions of the embedding:
* The SQLite `tasks` table is a `List Task`; `getTask` is `List.find?` on the
  id column, matching `SELECT * FROM tasks WHERE id = ?` on a table whose ids
  are primary keys (uniqueness is an explicit hypothesis where it matters).
* ISO-8601 timestamp strings are modelled as `Int` milliseconds.  All
  comparisons the source performs on them (`Date.parse` results, SQL `<` on
  equally formatted ISO strings, `mtimeMs`) are order-isomorphic to this.
  Each operation takes the clock reading `now : Int` as an explicit argument.
* JavaScript truthiness on strings ("" is falsy) and on parsed timestamps
  (0 is falsy) is modelled explicitly (`optStrTruthy`, `timeTruthy`).
* Mutating operations return the result *and* the post-state, so error paths
  carry which state the caller observes afterwards.
* JSON task metadata is modelled as a structure holding exactly the keys the
  embedded code reads or writes (`claude_task_id`, `sync_conflicts`); an
  absent / non-array `sync_conflicts` key is `none`.
-/

namespace Todos

/-- Task status values (`TASK_STATUSES` in `src/types/index.ts`). -/
inductive TaskStatus
  | pending
  | in_progress
  | completed
  | failed
  | cancelled
deriving DecidableEq, Repr

/-- Task priority values (`TASK_PRIORITIES` in `src/types/index.ts`). -/
inductive TaskPriority
  | low
  | medium
  | high
  | critical
deriving DecidableEq, Repr

/-- Sync preference (`SyncPrefer` in `src/lib/sync-types.ts`): the strings
`"local"` and `"remote"`. -/
inductive SyncPrefer
  | preferLocal
  | preferRemote
deriving DecidableEq, Repr

/-- Sync direction recorded in a conflict entry (`"push" | "pull"`). -/
inductive SyncDir
  | push
  | pull
deriving DecidableEq, Repr

/-- A recorded sync conflict (`SyncConflict` in `src/lib/sync-types.ts`).
Timestamp strings are modelled as `Int` milliseconds. -/
structure SyncConflict where
  agent : String
  direction : SyncDir
  prefer : SyncPrefer
  local_updated_at : Option Int := none
  remote_updated_at : Option Int := none
  detected_at : Int
deriving DecidableEq, Repr

/-- The slice of a task's JSON metadata map that the embedded code reads or
writes: the `claude_task_id` external-id mapping and the bounded
`sync_conflicts` log.  `sync_conflicts = none` models an absent (or non-array)
key, as in `appendSyncConflict`'s `Array.isArray` guard. -/
structure Metadata where
  claude_task_id : Option String := none
  sync_conflicts : Option (List SyncConflict) := none
deriving DecidableEq, Repr

/-- A task row (`Task` in `src/types/index.ts` / the `tasks` table). -/
structure Task where
  id : String
  project_id : Option String := none
  parent_id : Option String := none
  plan_id : Option String := none
  task_list_id : Option String := none
  title : String
  description : Option String := none
  status : TaskStatus := .pending
  priority : TaskPriority := .medium
  agent_id : Option String := none
  assigned_to : Option String := none
  session_id : Option String := none
  working_dir : Option String := none
  tags : List String := []
  metadata : Metadata := {}
  version : Nat := 1
  locked_by : Option String := none
  locked_at : Option Int := none
  created_at : Int
  updated_at : Int
  completed_at : Option Int := none
deriving DecidableEq, Repr

/-- The `tasks` table. -/
abbrev Store := List Task

/-- The error classes of `src/types/index.ts` that the embedded operations
raise.  `versionConflict` carries the actual version as `Int` because the
re-read path supplies `current?.version ?? -1`. -/
inductive StoreError
  | taskNotFound (taskId : String)
  | versionConflict (taskId : String) (expectedVersion : Nat) (actualVersion : Int)
  | lockError (taskId : String) (lockedBy : String)
  | dependencyCycle (taskId : String) (dependsOn : String)
deriving DecidableEq, Repr

/-- The `message` each error class passes to `Error` (used by the sync pass
when it catches and formats per-record exceptions). -/
def errMessage : StoreError → String
  | .taskNotFound id => s!"Task not found: {id}"
  | .versionConflict id expected actual =>
      s!"Version conflict for task {id}: expected {expected}, got {actual}"
  | .lockError id owner => s!"Task {id} is locked by {owner}"
  | .dependencyCycle a b => s!"Adding dependency {a} -> {b} would create a cycle"

/-- JavaScript truthiness of an optional string: `null`/`undefined` and the
empty string are falsy. -/
def optStrTruthy : Option String → Bool
  | none => false
  | some s => s ≠ ""

/-- JavaScript truthiness of a parsed timestamp (`parseTimestamp` result):
`null` and `0` are falsy. -/
def timeTruthy : Option Int → Bool
  | none => false
  | some t => t ≠ 0

/-- Embeds `getTask` (`src/db/tasks.ts`): `SELECT * FROM tasks WHERE id = ?`. -/
def getTask (id : String) (store : Store) : Option Task :=
  store.find? (fun t => t.id == id)

/-- Embeds `UpdateTaskInput` (`src/types/index.ts`): `undefined` (not provided) is
`none`; `version` is required. -/
structure UpdateTaskInput where
  title : Option String := none
  description : Option String := none
  status : Option TaskStatus := none
  priority : Option TaskPriority := none
  assigned_to : Option String := none
  plan_id : Option String := none
  task_list_id : Option String := none
  tags : Option (List String) := none
  metadata : Option Metadata := none
  version : Nat
deriving DecidableEq, Repr

/-- The `SET` clause built by `updateTask`: always `version = version + 1` and
`updated_at = now`, plus each provided field (the columns are independent, so
the sequential `sets.push` chain of the source is this simultaneous record
update); a transition to `completed` additionally stamps `completed_at`. -/
def applyUpdate (input : UpdateTaskInput) (now : Int) (t : Task) : Task :=
  { t with
    version := t.version + 1
    updated_at := now
    title := input.title.getD t.title
    description := match input.description with
      | none => t.description
      | some v => some v
    status := input.status.getD t.status
    completed_at := if input.status = some .completed then some now else t.completed_at
    priority := input.priority.getD t.priority
    assigned_to := match input.assigned_to with
      | none => t.assigned_to
      | some v => some v
    tags := input.tags.getD t.tags
    metadata := input.metadata.getD t.metadata
    plan_id := match input.plan_id with
      | none => t.plan_id
      | some v => some v
    task_list_id := match input.task_list_id with
      | none => t.task_list_id
      | some v => some v }

/-- The conditional write of `updateTask`:
`UPDATE tasks SET ... WHERE id = ? AND version = ?`, returning the new table
and the number of affected rows (`result.changes`). -/
def updateRun (input : UpdateTaskInput) (now : Int) (id : String) (version : Nat)
    (store : Store) : Store × Nat :=
  (store.map (fun t =>
      if t.id == id && t.version == version then applyUpdate input now t else t),
   (store.filter (fun t => t.id == id && t.version == version)).length)

/-- Embeds `updateTask` (`src/db/tasks.ts` lines 231-311).  Returns the thrown error
or the re-read updated task, together with the table the caller observes
afterwards.  The `replaceTaskTags` join-table maintenance is represented by
the `tags` field itself. -/
def updateTask (id : String) (input : UpdateTaskInput) (now : Int) (store : Store) :
    Except StoreError Task × Store :=
  match getTask id store with
  | none => (.error (.taskNotFound id), store)
  | some task =>
    -- Optimistic locking check
    if task.version ≠ input.version then
      (.error (.versionConflict id input.version task.version), store)
    else
      let (store', changes) := updateRun input now id input.version store
      if changes = 0 then
        -- Re-fetch to get actual version for error message
        (.error (.versionConflict id input.version
          (match getTask id store' with
           | some current => (current.version : Int)
           | none => -1)), store')
      else
        match getTask id store' with
        | some t' => (.ok t', store')
        | none => (.error (.taskNotFound id), store')

/-! ### Lease lock state machine (`src/db/database.ts`, `src/db/tasks.ts`) -/

/-- Embeds `LOCK_EXPIRY_MINUTES` (`src/db/database.ts`). -/
def LOCK_EXPIRY_MINUTES : Nat := 30

/-- The lease window in milliseconds. -/
def lockExpiryMs : Int := LOCK_EXPIRY_MINUTES * 60 * 1000

/-- Embeds `isLockExpired` (`src/db/database.ts`): a missing `locked_at` counts as
expired; otherwise the lease is expired when it is older than 30 minutes. -/
def isLockExpired (lockedAt : Option Int) (nowMs : Int) : Bool :=
  match lockedAt with
  | none => true
  | some lockTime => nowMs - lockTime > lockExpiryMs

/-- Embeds `lockExpiryCutoff` (`src/db/database.ts`). -/
def lockExpiryCutoff (nowMs : Int) : Int :=
  nowMs - lockExpiryMs

/-- Embeds `clearExpiredLocks` (`src/db/database.ts`):
`UPDATE tasks SET locked_by = NULL, locked_at = NULL WHERE locked_at IS NOT
NULL AND locked_at < cutoff`. -/
def clearExpiredLocks (now : Int) (store : Store) : Store :=
  store.map (fun t =>
    match t.locked_at with
    | some la =>
        if la < lockExpiryCutoff now then { t with locked_by := none, locked_at := none } else t
    | none => t)

/-- Embeds `LockResult` (`src/types/index.ts`). -/
structure LockResult where
  success : Bool
  locked_by : Option String := none
  locked_at : Option Int := none
  error : Option String := none
deriving DecidableEq, Repr

/-- The `WHERE` condition of the lock acquisition write:
`locked_by IS NULL OR locked_by = agent OR locked_at < cutoff` (SQL `NULL <
cutoff` is not satisfied). -/
def lockCondition (agentId : String) (cutoff : Int) (t : Task) : Bool :=
  t.locked_by.isNone || t.locked_by == some agentId ||
    (match t.locked_at with
     | none => false
     | some la => la < cutoff)

/-- The conditional write of `lockTask`:
`UPDATE tasks SET locked_by = ?, locked_at = ?, version = version + 1,
updated_at = ? WHERE id = ? AND (locked_by IS NULL OR locked_by = ? OR
locked_at < ?)`, returning the table and `result.changes`. -/
def lockRun (agentId : String) (timestamp cutoff : Int) (id : String)
    (store : Store) : Store × Nat :=
  (store.map (fun t =>
      if t.id == id && lockCondition agentId cutoff t then
        { t with locked_by := some agentId, locked_at := some timestamp,
                 version := t.version + 1, updated_at := timestamp }
      else t),
   (store.filter (fun t => t.id == id && lockCondition agentId cutoff t)).length)

/-- Embeds `lockTask` (`src/db/tasks.ts` lines 373-410).  Contention is a structured
`LockResult`, not an exception; only a missing task throws. -/
def lockTask (id agentId : String) (now : Int) (store : Store) :
    Except StoreError LockResult × Store :=
  match getTask id store with
  | none => (.error (.taskNotFound id), store)
  | some task =>
    -- Already locked by same agent
    if task.locked_by == some agentId && !isLockExpired task.locked_at now then
      (.ok { success := true, locked_by := some agentId, locked_at := task.locked_at }, store)
    else
      -- Acquire lock (atomically if not locked or expired)
      let cutoff := lockExpiryCutoff now
      let (store', changes) := lockRun agentId now cutoff id store
      if changes = 0 then
        match getTask id store' with
        | none => (.error (.taskNotFound id), store')
        | some current =>
          match current.locked_by with
          | some owner =>
              if owner ≠ "" && !isLockExpired current.locked_at now then
                (.ok { success := false, locked_by := some owner,
                       locked_at := current.locked_at,
                       error := some s!"Task is locked by {owner}" }, store')
              else
                (.ok { success := true, locked_by := some agentId, locked_at := some now }, store')
          | none =>
              (.ok { success := true, locked_by := some agentId, locked_at := some now }, store')
      else
        (.ok { success := true, locked_by := some agentId, locked_at := some now }, store')

/-- The ownership guard of `completeTask`:
`agentId && task.locked_by && task.locked_by !== agentId &&
!isLockExpired(task.locked_at)` with JavaScript string truthiness. -/
def completeGuard (agentId : Option String) (t : Task) (now : Int) : Bool :=
  optStrTruthy agentId && optStrTruthy t.locked_by && t.locked_by != agentId &&
    !isLockExpired t.locked_at now

/-- Embeds `completeTask` (`src/db/tasks.ts` lines 344-371): requires the task to
exist; the ownership guard only applies when a (truthy) agent id is supplied;
the write sets `completed` status, stamps `completed_at`, clears both lease
fields and bumps the version unconditionally on the row. -/
def completeTask (id : String) (agentId : Option String) (now : Int) (store : Store) :
    Except StoreError Task × Store :=
  match getTask id store with
  | none => (.error (.taskNotFound id), store)
  | some task =>
    -- Check lock ownership if agent specified
    if completeGuard agentId task now then
      (.error (.lockError id (task.locked_by.getD "")), store)
    else
      let store' := store.map (fun t =>
        if t.id == id then
          { t with status := .completed, locked_by := none, locked_at := none,
                   completed_at := some now, version := t.version + 1, updated_at := now }
        else t)
      match getTask id store' with
      | some t' => (.ok t', store')
      | none => (.error (.taskNotFound id), store')

/-! ### Dependency graph guard (`src/db/tasks.ts` lines 438-518) -/

/-- The dependency edge table: `(task_id, depends_on)` pairs. -/
abbrev EdgeList := List (String × String)

/-- The query `SELECT depends_on FROM task_dependencies WHERE task_id = ?`. -/
def successors (edges : EdgeList) (current : String) : List String :=
  (edges.filter (fun e => e.1 == current)).map (·.2)

/-- The BFS loop of `wouldCreateCycle`: pop the queue, succeed on reaching the
target, skip visited nodes, otherwise mark visited and enqueue successors.
The `fuel` argument is a termination artifact absent from the source (whose
`while` loop terminates because each node is expanded at most once); it is
chosen large enough in `wouldCreateCycle` that it is never exhausted. -/
def bfsLoop (edges : EdgeList) (target : String)
    (fuel : Nat) (queue : List String) (visited : List String) : Bool :=
  match queue with
  | [] => false
  | current :: rest =>
    if current = target then true
    else if current ∈ visited then bfsLoop edges target fuel rest visited
    else
      match fuel with
      | 0 => false
      | fuel' + 1 =>
          bfsLoop edges target fuel' (rest ++ successors edges current) (current :: visited)
termination_by (fuel, queue)

/-- Embeds `wouldCreateCycle` (`src/db/tasks.ts` lines 493-518): BFS from `dependsOn`
along `depends_on` edges looking for `taskId`. -/
def wouldCreateCycle (taskId dependsOn : String) (edges : EdgeList) : Bool :=
  bfsLoop edges taskId (edges.length + 2) [dependsOn] []

/-- The statement `INSERT OR IGNORE INTO task_dependencies (task_id, depends_on)`:
idempotent insertion on the primary key. -/
def insertEdge (taskId dependsOn : String) (edges : EdgeList) : EdgeList :=
  if (taskId, dependsOn) ∈ edges then edges else edges ++ [(taskId, dependsOn)]

/-- Embeds `addDependency` (`src/db/tasks.ts` lines 438-458): both endpoints must
exist, then the cycle check, then idempotent insertion. -/
def addDependency (taskId dependsOn : String) (store : Store) (edges : EdgeList) :
    Except StoreError EdgeList :=
  if (getTask taskId store).isNone then .error (.taskNotFound taskId)
  else if (getTask dependsOn store).isNone then .error (.taskNotFound dependsOn)
  else if wouldCreateCycle taskId dependsOn edges then
    .error (.dependencyCycle taskId dependsOn)
  else .ok (insertEdge taskId dependsOn edges)

/-- One step of the dependency relation: `a` depends on `b`. -/
def depStep (edges : EdgeList) (a b : String) : Prop :=
  (a, b) ∈ edges

/-- The edge set has no directed cycle (no non-trivial path from a node back
to itself). -/
def Acyclic (edges : EdgeList) : Prop :=
  ∀ x, ¬ Relation.TransGen (depStep edges) x x

/-- Replay a sequence of `addDependency` requests against a store, keeping
the successful insertions and skipping the failed ones. -/
def applyDeps (reqs : List (String × String)) (store : Store) (edges : EdgeList) : EdgeList :=
  reqs.foldl (fun acc r =>
    match addDependency r.1 r.2 store acc with
    | .ok acc' => acc'
    | .error _ => acc) edges

/-! ### Listing (`src/db/tasks.ts` lines 141-229) -/

/-- Embeds `TaskFilter` (`src/types/index.ts`).  A single status/priority value and a
one-element array produce the same SQL condition, so both are modelled as a
list; `parent_id : some none` models the explicit `null` (`IS NULL`) filter. -/
structure TaskFilter where
  project_id : Option String := none
  parent_id : Option (Option String) := none
  plan_id : Option String := none
  status : Option (List TaskStatus) := none
  priority : Option (List TaskPriority) := none
  assigned_to : Option String := none
  agent_id : Option String := none
  session_id : Option String := none
  tags : Option (List String) := none
  task_list_id : Option String := none
  limit : Option Nat := none
  offset : Option Nat := none
deriving DecidableEq, Repr

/-- The `WHERE` conditions assembled by `listTasks`.  String filters are
guarded by JavaScript truthiness (`if (filter.project_id)` …); the tag
condition is the `task_tags` join, whose rows are exactly the non-empty tags
of each task (`insertTaskTags` skips empty strings). -/
def matchesFilter (filter : TaskFilter) (t : Task) : Bool :=
  (!optStrTruthy filter.project_id || t.project_id == filter.project_id) &&
  (match filter.parent_id with
   | none => true
   | some none => t.parent_id.isNone
   | some (some p) => t.parent_id == some p) &&
  (match filter.status with
   | none => true
   | some l => l.contains t.status) &&
  (match filter.priority with
   | none => true
   | some l => l.contains t.priority) &&
  (!optStrTruthy filter.assigned_to || t.assigned_to == filter.assigned_to) &&
  (!optStrTruthy filter.agent_id || t.agent_id == filter.agent_id) &&
  (match filter.tags with
   | none => true
   | some l => l.isEmpty || l.any (fun tg => tg ≠ "" && t.tags.contains tg)) &&
  (!optStrTruthy filter.plan_id || t.plan_id == filter.plan_id) &&
  (!optStrTruthy filter.session_id || t.session_id == filter.session_id) &&
  (!optStrTruthy filter.task_list_id || t.task_list_id == filter.task_list_id)

/-- The `ORDER BY` key: `CASE priority WHEN 'critical' THEN 0 WHEN 'high'
THEN 1 WHEN 'medium' THEN 2 WHEN 'low' THEN 3 END`. -/
def priorityOrder : TaskPriority → Nat
  | .critical => 0
  | .high => 1
  | .medium => 2
  | .low => 3

/-- The row order produced by `ORDER BY priority-case, created_at DESC`. -/
def taskLE (a b : Task) : Bool :=
  priorityOrder a.priority < priorityOrder b.priority ||
    (priorityOrder a.priority == priorityOrder b.priority && a.created_at ≥ b.created_at)

/-- Embeds `listTasks` (`src/db/tasks.ts` lines 141-229): best-effort expired-lease
sweep, filtering, ordering, then `LIMIT filter.limit || 100 OFFSET
filter.offset || 0` (JavaScript `||`: an explicit limit of `0` also falls
back to 100).  Returns the swept table and the selected rows. -/
def listTasks (filter : TaskFilter) (now : Int) (store : Store) : Store × List Task :=
  let store₁ := clearExpiredLocks now store
  let matching := store₁.filter (matchesFilter filter)
  let sorted := matching.mergeSort taskLE
  let limitVal := match filter.limit with
    | some n => if n = 0 then 100 else n
    | none => 100
  let offsetVal := filter.offset.getD 0
  (store₁, (sorted.drop offsetVal).take limitVal)

/-! ### Sync push pass (`src/lib/claude-tasks.ts`, `src/lib/sync-utils.ts`) -/

/-- Embeds `appendSyncConflict` (`src/lib/sync-utils.ts` lines 53-61; callers use the default limit of 5): prepend the
new conflict and keep the first `limit` (default 5) entries. -/
def appendSyncConflict (metadata : Metadata) (conflict : SyncConflict)
    (limit : Nat) : Metadata :=
  let current := match metadata.sync_conflicts with
    | some l => l
    | none => []
  { metadata with sync_conflicts := some ((conflict :: current).take limit) }

/-- The type `ClaudeTask["status"]`: `"pending" | "in_progress" | "completed"`. -/
inductive ClaudeStatus
  | pending
  | in_progress
  | completed
deriving DecidableEq, Repr

/-- Embeds `toClaudeStatus` (`src/lib/claude-tasks.ts`): `failed` and `cancelled`
map to `completed`. -/
def toClaudeStatus : TaskStatus → ClaudeStatus
  | .pending => .pending
  | .in_progress => .in_progress
  | .completed => .completed
  | .failed => .completed
  | .cancelled => .completed

/-- The slice of a mirror record's metadata area that the push pass reads or
writes (`todos_id` back-reference, `todos_updated_at` last-synced stamp,
`todos_version`, mirrored `priority`, and the pull pass's `_internal` flag). -/
structure ClaudeMeta where
  todos_id : Option String := none
  priority : Option TaskPriority := none
  todos_updated_at : Option Int := none
  todos_version : Option Nat := none
  internal : Bool := false
deriving DecidableEq, Repr

/-- A mirror record (`ClaudeTask` in `src/lib/claude-tasks.ts`). -/
structure ClaudeTask where
  id : String
  subject : String
  description : String
  activeForm : String
  status : ClaudeStatus
  owner : String
  blocks : List String
  blockedBy : List String
  metadata : ClaudeMeta
deriving DecidableEq, Repr

/-- JavaScript `a || b` on a nullable string. -/
def jsOr (a : Option String) (b : String) : String :=
  match a with
  | none => b
  | some s => if s = "" then b else s

/-- Embeds `taskToClaudeTask` (`src/lib/claude-tasks.ts` lines 72-90). -/
def taskToClaudeTask (task : Task) (claudeTaskId : String)
    (existingMeta : Option ClaudeMeta) : ClaudeTask :=
  { id := claudeTaskId
    subject := task.title
    description := task.description.getD ""
    activeForm := ""
    status := toClaudeStatus task.status
    owner := jsOr task.assigned_to (jsOr task.agent_id "")
    blocks := []
    blockedBy := []
    metadata := { existingMeta.getD {} with
      todos_id := some task.id
      priority := some task.priority
      todos_updated_at := some task.updated_at
      todos_version := some task.version } }

/-- One `<id>.json` file of a mirror task-list directory: its name (without
the extension), parsed contents, and last-modified time
(`getFileMtimeMs`, `none` when `statSync` fails). -/
structure MirrorFile where
  name : String
  ct : ClaudeTask
  mtimeMs : Option Int
deriving DecidableEq, Repr

/-- A mirror task-list directory: the record files plus the
`.highwatermark` and `.prefix-counter` bookkeeping files (`none` models an
absent file). -/
structure MirrorDir where
  files : List MirrorFile
  highwater : Option Nat := none
  prefixCounter : Option Nat := none
deriving DecidableEq, Repr

/-- Embeds `readHighWaterMark` (`src/lib/sync-utils.ts`): missing file defaults
to 1. -/
def readHighWaterMark (dir : MirrorDir) : Nat :=
  dir.highwater.getD 1

/-- Embeds `readPrefixCounter` (`src/lib/claude-tasks.ts`): missing file defaults
to 0. -/
def readPrefixCounter (dir : MirrorDir) : Nat :=
  dir.prefixCounter.getD 0

/-- Embeds `writeClaudeTask` (`src/lib/claude-tasks.ts`): write `<ct.id>.json`,
replacing an existing file of that name or creating a new one; the write
stamps the file's mtime. -/
def writeClaudeTask (now : Int) (files : List MirrorFile) (ct : ClaudeTask) :
    List MirrorFile :=
  if files.any (fun f => f.name == ct.id) then
    files.map (fun f => if f.name == ct.id then ⟨ct.id, ct, some now⟩ else f)
  else
    files ++ [⟨ct.id, ct, some now⟩]

/-- The `existingByTodosId` map built before the push loop: for each record
file with a truthy `todos_id`, map that id to the record and its mtime
(`Map.set`: the last file wins, hence the prepending fold). -/
def buildExistingByTodosId (files : List MirrorFile) :
    List (String × ClaudeTask × Option Int) :=
  files.foldl (fun acc mf =>
    match mf.ct.metadata.todos_id with
    | some tid => if tid = "" then acc else (tid, mf.ct, mf.mtimeMs) :: acc
    | none => acc) []

/-- The lookup `existingByTodosId.get(task.id)`. -/
def lookupExisting (m : List (String × ClaudeTask × Option Int)) (id : String) :
    Option (ClaudeTask × Option Int) :=
  (m.find? (fun e => e.1 == id)).map (·.2)

/-- The conflict-detection guard of the push (and pull) pass:
`lastSyncedAt && localUpdatedAt && remoteUpdatedAt && localUpdatedAt >
lastSyncedAt && remoteUpdatedAt > lastSyncedAt` (JavaScript truthiness: a
missing or zero parsed timestamp disables detection). -/
def syncConflictDetected (lastSyncedAt localUpdatedAt remoteUpdatedAt : Option Int) : Bool :=
  timeTruthy lastSyncedAt && timeTruthy localUpdatedAt && timeTruthy remoteUpdatedAt &&
    localUpdatedAt.getD 0 > lastSyncedAt.getD 0 &&
    remoteUpdatedAt.getD 0 > lastSyncedAt.getD 0

/-- Embeds `TaskPrefixConfig` (`src/lib/config.ts`); `prefixText` is the `prefix`
string field (renamed: `prefix` is reserved in Lean). -/
structure TaskPrefixConfig where
  prefixText : String
  start_from : Option Nat := none
deriving DecidableEq, Repr

/-- The padding `String(counter).padStart(5, "0")`. -/
def padStart5 (s : String) : String :=
  if s.length ≥ 5 then s else String.mk (List.replicate (5 - s.length) '0') ++ s

/-- Embeds `formatPrefixedSubject` (`src/lib/claude-tasks.ts`). -/
def formatPrefixedSubject (title prefixText : String) (counter : Nat) : String :=
  prefixText ++ "-" ++ padStart5 (toString counter) ++ ": " ++ title

/-- Embeds `SyncResult` (`src/lib/sync-types.ts`). -/
structure SyncResult where
  pushed : Nat
  pulled : Nat
  errors : List String
deriving DecidableEq, Repr

/-- The mutable state threaded through the push loop: the mirror record
files, the local table, the high-water mark, the prefix counter, and the
accumulated counts and per-record errors. -/
structure PushState where
  files : List MirrorFile
  store : Store
  hwm : Nat
  prefixCounter : Nat
  pushed : Nat
  errors : List String
deriving DecidableEq, Repr

/-- One iteration of the push loop of `pushToClaudeTaskList`
(`src/lib/claude-tasks.ts` lines 131-203), including the surrounding
`try`/`catch`: a thrown `updateTask` error is caught and appended to the
error list, keeping whatever file writes already happened and skipping the
`pushed` increment. -/
def pushStep (existingMap : List (String × ClaudeTask × Option Int))
    (prefer : SyncPrefer) (prefixConfig : Option TaskPrefixConfig) (now : Int)
    (st : PushState) (task : Task) : PushState :=
  match lookupExisting existingMap task.id with
  | some (ctExist, mtime) =>
    let lastSyncedAt := ctExist.metadata.todos_updated_at
    let localUpdatedAt : Option Int := some task.updated_at
    let remoteUpdatedAt := mtime
    let detected := syncConflictDetected lastSyncedAt localUpdatedAt remoteUpdatedAt
    if detected && prefer == .preferRemote then
      -- remote wins: record the conflict locally, skip this record
      let conflict : SyncConflict :=
        { agent := "claude", direction := .push, prefer := prefer,
          local_updated_at := some task.updated_at,
          remote_updated_at := some (remoteUpdatedAt.getD 0),
          detected_at := now }
      let newMeta := appendSyncConflict task.metadata conflict 5
      match updateTask task.id { version := task.version, metadata := some newMeta } now st.store with
      | (.ok _, store') =>
          { st with store := store',
                    errors := st.errors ++ [s!"conflict push {task.id}: remote newer"] }
      | (.error e, store') =>
          { st with store := store',
                    errors := st.errors ++ [s!"push {task.id}: " ++ errMessage e] }
    else
      -- Update existing Claude task
      let updated := taskToClaudeTask task ctExist.id (some ctExist.metadata)
      let updated := { updated with blocks := ctExist.blocks,
                                    blockedBy := ctExist.blockedBy,
                                    activeForm := ctExist.activeForm }
      let files' := writeClaudeTask now st.files updated
      if detected then
        -- local wins (prefer = local): still record the conflict
        match getTask task.id st.store with
        | some latest =>
          let conflict : SyncConflict :=
            { agent := "claude", direction := .push, prefer := prefer,
              local_updated_at := some latest.updated_at,
              remote_updated_at := match remoteUpdatedAt with
                | some r => if r ≠ 0 then some r else none
                | none => none,
              detected_at := now }
          let newMeta := appendSyncConflict latest.metadata conflict 5
          match updateTask latest.id { version := latest.version, metadata := some newMeta } now st.store with
          | (.ok _, store') =>
              { st with files := files', store := store', pushed := st.pushed + 1 }
          | (.error e, store') =>
              { st with files := files', store := store',
                        errors := st.errors ++ [s!"push {task.id}: " ++ errMessage e] }
        | none =>
          { st with files := files', pushed := st.pushed + 1 }
      else
        { st with files := files', pushed := st.pushed + 1 }
  | none =>
    -- Create new Claude task
    let claudeId := toString st.hwm
    let hwm' := st.hwm + 1
    let ct := taskToClaudeTask task claudeId none
    let (ct, prefixCounter') := match prefixConfig with
      | some cfg =>
          ({ ct with subject := formatPrefixedSubject task.title cfg.prefixText (st.prefixCounter + 1) },
           st.prefixCounter + 1)
      | none => (ct, st.prefixCounter)
    let files' := writeClaudeTask now st.files ct
    -- Store the mapping in SQLite metadata
    match getTask task.id st.store with
    | some current =>
      let newMeta := { current.metadata with claude_task_id := some claudeId }
      match updateTask task.id { version := current.version, metadata := some newMeta } now st.store with
      | (.ok _, store') =>
          { st with files := files', store := store', hwm := hwm',
                    prefixCounter := prefixCounter', pushed := st.pushed + 1 }
      | (.error e, store') =>
          { st with files := files', store := store', hwm := hwm',
                    prefixCounter := prefixCounter',
                    errors := st.errors ++ [s!"push {task.id}: " ++ errMessage e] }
    | none =>
      { st with files := files', hwm := hwm',
                prefixCounter := prefixCounter', pushed := st.pushed + 1 }

/-- Embeds `pushToClaudeTaskList` (`src/lib/claude-tasks.ts` lines 96-208): list the
local tasks in scope, build the `todos_id` index of the mirror directory,
run the push loop, persist the high-water mark (and prefix counter when
configured).  Returns the `SyncResult`, the final mirror directory, and the
final local table. -/
def pushToClaudeTaskList (projectId : Option String) (preferOpt : Option SyncPrefer)
    (prefixConfig : Option TaskPrefixConfig) (now : Int)
    (dir : MirrorDir) (store : Store) : SyncResult × MirrorDir × Store :=
  let (store₁, tasks) := listTasks { project_id := projectId } now store
  let existingMap := buildExistingByTodosId dir.files
  let hwm := readHighWaterMark dir
  let prefer := preferOpt.getD .preferRemote
  -- Task prefix support (`prefixCounter` is only read when configured; a
  -- truthy `start_from` raises it to `start_from - 1`)
  let pc0 := match prefixConfig with
    | some _ => readPrefixCounter dir
    | none => 0
  let pc1 := match prefixConfig with
    | some cfg =>
        match cfg.start_from with
        | some sf => if sf ≠ 0 && pc0 < sf then sf - 1 else pc0
        | none => pc0
    | none => pc0
  let init : PushState :=
    { files := dir.files, store := store₁, hwm := hwm, prefixCounter := pc1,
      pushed := 0, errors := [] }
  let final := tasks.foldl (pushStep existingMap prefer prefixConfig now) init
  ({ pushed := final.pushed, pulled := 0, errors := final.errors },
   { files := final.files, highwater := some final.hwm,
     prefixCounter := match prefixConfig with
       | some _ => some final.prefixCounter
       | none => dir.prefixCounter },
   final.store)

/-- The row transformation of the lock acquisition write. -/
def lockWrite (agentId : String) (timestamp : Int) (t : Task) : Task :=
  { t with locked_by := some agentId, locked_at := some timestamp,
           version := t.version + 1, updated_at := timestamp }

/-- The row transformation of the `completeTask` write. -/
def completeWrite (now : Int) (t : Task) : Task :=
  { t with status := .completed, locked_by := none, locked_at := none,
           completed_at := some now, version := t.version + 1, updated_at := now }

/-- The conflict log of a task as observed through the table (`none` when the
task is missing). -/
def syncLog (id : String) (store : Store) : Option (Option (List SyncConflict)) :=
  (getTask id store).map (fun t => t.metadata.sync_conflicts)

/-! ### Sample data for concrete evaluations -/

/-- A single local task `"a"`, mirrored and fully synchronized: its mirror
record carries last-synced stamp 1000 equal to its `updated_at`. -/
def sampleTask : Task :=
  { id := "a"
    title := "A"
    metadata := { claude_task_id := some "1" }
    created_at := 500
    updated_at := 1000 }

/-- The mirror record `1.json` that a previous push of `sampleTask` left
behind. -/
def sampleCt : ClaudeTask :=
  { id := "1"
    subject := "A"
    description := ""
    activeForm := ""
    status := .pending
    owner := ""
    blocks := []
    blockedBy := []
    metadata := { todos_id := some "a"
                  priority := some .medium
                  todos_updated_at := some 1000
                  todos_version := some 1 } }

/-- The mirror directory holding exactly that record, last written at 1500. -/
def sampleDir : MirrorDir :=
  { files := [⟨"1", sampleCt, some 1500⟩] }

/-- The local table holding exactly `sampleTask`. -/
def sampleStore : Store := [sampleTask]

/-! ## Lemmas about the store -/

theorem getTask_mem {id : String} {store : Store} {t : Task}
    (h : getTask id store = some t) : t ∈ store ∧ t.id = id := by
  unfold getTask at h
  refine ⟨List.mem_of_find?_eq_some h, ?_⟩
  have := List.find?_some h
  simpa using this

theorem applyUpdate_id (input : UpdateTaskInput) (now : Int) (t : Task) :
    (applyUpdate input now t).id = t.id := rfl

/-- Lemma: `find?` on the id column commutes with a row transformation that fires on
a row predicate and preserves ids. -/
theorem getTask_map_rows (id : String) (p : Task → Bool) (g : Task → Task)
    (hid : ∀ t, (g t).id = t.id) (store : Store) :
    getTask id (store.map (fun t => if p t then g t else t)) =
      (getTask id store).map (fun t => if p t then g t else t) := by
  unfold getTask
  induction store with
  | nil => rfl
  | cons h tl ih =>
      by_cases hp : p h
      · by_cases hm : h.id == id
        · simp [List.find?, hp, hm, hid]
        · simp [List.find?, hp, hm, hid, ih]
      · by_cases hm : h.id == id
        · simp [List.find?, hp, hm]
        · simp [List.find?, hp, hm, ih]

theorem updateRun_changes_ne_zero {id : String} {store : Store} {task : Task}
    (hfind : getTask id store = some task) (input : UpdateTaskInput) (now : Int)
    (hver : task.version = input.version) :
    (updateRun input now id input.version store).2 ≠ 0 := by
  obtain ⟨hmem, hid⟩ := getTask_mem hfind
  unfold updateRun
  simp only [ne_eq, List.length_eq_zero, List.filter_eq_nil_iff]
  intro hall
  exact hall task hmem (by simp [hid, hver])

theorem updateRun_zero_noop {input : UpdateTaskInput} {now : Int} {id : String}
    {version : Nat} {store : Store}
    (h : (updateRun input now id version store).2 = 0) :
    (updateRun input now id version store).1 = store := by
  unfold updateRun at *
  simp only [List.length_eq_zero, List.filter_eq_nil_iff] at h
  have hmap : ∀ t ∈ store,
      (if t.id == id && t.version == version then applyUpdate input now t else t) = t := by
    intro t ht
    simp [h t ht]
  exact (List.map_congr_left hmap).trans (List.map_id' store)

/-- On success, `updateTask` returns exactly the re-read row with the `SET`
clause applied, and rewrites the matching rows of the table. -/
theorem updateTask_success_char {id : String} {store : Store} {task : Task}
    (hfind : getTask id store = some task) (input : UpdateTaskInput) (now : Int)
    (hver : task.version = input.version) :
    updateTask id input now store =
      (.ok (applyUpdate input now task), (updateRun input now id input.version store).1) := by
  have hch := updateRun_changes_ne_zero hfind input now hver
  have hid : task.id = id := (getTask_mem hfind).2
  have hget : getTask id (updateRun input now id input.version store).1 =
      some (applyUpdate input now task) := by
    unfold updateRun
    rw [getTask_map_rows id _ _ (fun t => applyUpdate_id input now t) store]
    rw [hfind]
    simp [hid, hver]
  unfold updateTask
  rw [hfind]
  simp only [hver, ne_eq, not_true_eq_false, if_false, ite_false]
  simp [hch, hget]

/-- Any thrown `updateTask` error leaves the table as it was. -/
theorem updateTask_error_store {id : String} {input : UpdateTaskInput} {now : Int}
    {store : Store} {e : StoreError}
    (h : (updateTask id input now store).1 = .error e) :
    (updateTask id input now store).2 = store := by
  cases hfind : getTask id store with
  | none =>
      unfold updateTask
      rw [hfind]
  | some task =>
      unfold updateTask at h ⊢
      rw [hfind] at h ⊢
      by_cases hver : task.version = input.version
      · have hch := updateRun_changes_ne_zero hfind input now hver
        have hid : task.id = id := (getTask_mem hfind).2
        have hget : getTask id (updateRun input now id input.version store).1 =
            some (applyUpdate input now task) := by
          unfold updateRun
          rw [getTask_map_rows id _ _ (fun t => applyUpdate_id input now t) store]
          rw [hfind]
          simp [hid, hver]
        simp only [hver, ne_eq, not_true_eq_false, if_false, ite_false] at h
        simp [hch, hget] at h
      · simp [hver]

/-! ## C2: the optimistic versioning protocol of `updateTask` -/

/-- Claim C2.  `updateTask(id, patch, expectedVersion)`: a missing task fails
with `NotFound`; a version mismatch fails with `VersionConflict` carrying the
caller's expected version and the row's actual version; on a match the update
succeeds, the stored version becomes exactly `expectedVersion + 1`, and a
subsequent update presenting the old version fails with a `VersionConflict`
reporting the new actual version. -/
theorem updateTask_version_protocol (id : String) (input : UpdateTaskInput)
    (now : Int) (store : Store) :
    (getTask id store = none →
      updateTask id input now store = (.error (.taskNotFound id), store)) ∧
    (∀ task, getTask id store = some task → task.version ≠ input.version →
      updateTask id input now store =
        (.error (.versionConflict id input.version (task.version : Int)), store)) ∧
    (∀ task, getTask id store = some task → task.version = input.version →
      ∃ t' store', updateTask id input now store = (.ok t', store') ∧
        t'.version = input.version + 1 ∧
        getTask id store' = some t' ∧
        ∀ (input₂ : UpdateTaskInput) (now₂ : Int), input₂.version = input.version →
          (updateTask id input₂ now₂ store').1 =
            .error (.versionConflict id input₂.version ((input.version + 1 : Nat) : Int))) := by
  refine ⟨?_, ?_, ?_⟩
  · intro hnone
    unfold updateTask
    rw [hnone]
  · intro task hfind hver
    unfold updateTask
    rw [hfind]
    simp [hver]
  · intro task hfind hver
    have hchar := updateTask_success_char hfind input now hver
    refine ⟨applyUpdate input now task, (updateRun input now id input.version store).1,
      hchar, ?_, ?_, ?_⟩
    · simp [applyUpdate, hver]
    · unfold updateRun
      rw [getTask_map_rows id _ _ (fun t => applyUpdate_id input now t) store]
      rw [hfind]
      simp [(getTask_mem hfind).2, hver]
    · intro input₂ now₂ hv₂
      have hget' : getTask id (updateRun input now id input.version store).1 =
          some (applyUpdate input now task) := by
        unfold updateRun
        rw [getTask_map_rows id _ _ (fun t => applyUpdate_id input now t) store]
        rw [hfind]
        simp [(getTask_mem hfind).2, hver]
      unfold updateTask
      rw [hget']
      have : (applyUpdate input now task).version ≠ input₂.version := by
        simp [applyUpdate, hver, hv₂]
      simp [this, applyUpdate, hver, hv₂]

/-- Witness for C2 at a concrete store. -/
theorem updateTask_version_protocol_witness :
    ∃ t' store',
      updateTask "a" { title := some "A2", version := 1 } 50
        [{ id := "a", title := "A", created_at := 10, updated_at := 10 }] = (.ok t', store') ∧
      t'.version = 2 ∧ getTask "a" store' = some t' ∧
      ∀ (input₂ : UpdateTaskInput) (now₂ : Int), input₂.version = 1 →
        (updateTask "a" input₂ now₂ store').1 =
          .error (.versionConflict "a" input₂.version ((2 : Nat) : Int)) := by
  have h := (updateTask_version_protocol "a" { title := some "A2", version := 1 } 50
    [{ id := "a", title := "A", created_at := 10, updated_at := 10 }]).2.2
    { id := "a", title := "A", created_at := 10, updated_at := 10 } (by decide) (by decide)
  exact h

/-! ## C3: a `VersionConflict` failure leaves the table untouched -/

/-- Claim C3.  When `updateTask` fails with `VersionConflict`, the table the
caller observes afterwards is exactly the table before the call; in
particular the targeted record keeps every one of its fields. -/
theorem updateTask_conflict_frame (id : String) (input : UpdateTaskInput)
    (now : Int) (store : Store) (tid : String) (expected : Nat) (actual : Int)
    (h : (updateTask id input now store).1 = .error (.versionConflict tid expected actual)) :
    (updateTask id input now store).2 = store ∧
    getTask id (updateTask id input now store).2 = getTask id store := by
  have hs := updateTask_error_store h
  exact ⟨hs, by rw [hs]⟩

/-- Witness for C3: a stale expected version leaves the concrete store
unchanged. -/
theorem updateTask_conflict_frame_witness :
    (updateTask "a" { title := some "A3", version := 1 } 99
        [{ id := "a", title := "A2", version := 2, created_at := 10, updated_at := 50 }]).2 =
      [{ id := "a", title := "A2", version := 2, created_at := 10, updated_at := 50 }] :=
  (updateTask_conflict_frame "a" { title := some "A3", version := 1 } 99
    [{ id := "a", title := "A2", version := 2, created_at := 10, updated_at := 50 }]
    "a" 1 2 (by rfl)).1

/-! ## C9: frame conditions of a successful `updateTask` -/

/-- Claim C9.  A successful `updateTask` changes only the explicitly provided
fields, plus `version` (by one) and `updated_at` (to the clock reading), and
`completed_at` exactly when the patch sets status to `completed`; every
omitted field — and every field outside the patch surface — is returned
unchanged. -/
theorem updateTask_frame (id : String) (input : UpdateTaskInput) (now : Int)
    (store : Store) (task : Task)
    (hfind : getTask id store = some task) (hver : task.version = input.version) :
    ∃ store', updateTask id input now store = (.ok (applyUpdate input now task), store') ∧
      (let t' := applyUpdate input now task;
        t'.version = task.version + 1 ∧ t'.updated_at = now ∧
        t'.id = task.id ∧ t'.project_id = task.project_id ∧
        t'.parent_id = task.parent_id ∧ t'.agent_id = task.agent_id ∧
        t'.session_id = task.session_id ∧ t'.working_dir = task.working_dir ∧
        t'.locked_by = task.locked_by ∧ t'.locked_at = task.locked_at ∧
        t'.created_at = task.created_at ∧
        (input.title = none → t'.title = task.title) ∧
        (∀ v, input.title = some v → t'.title = v) ∧
        (input.description = none → t'.description = task.description) ∧
        (∀ v, input.description = some v → t'.description = some v) ∧
        (input.status = none → t'.status = task.status) ∧
        (∀ v, input.status = some v → t'.status = v) ∧
        (input.priority = none → t'.priority = task.priority) ∧
        (∀ v, input.priority = some v → t'.priority = v) ∧
        (input.assigned_to = none → t'.assigned_to = task.assigned_to) ∧
        (∀ v, input.assigned_to = some v → t'.assigned_to = some v) ∧
        (input.tags = none → t'.tags = task.tags) ∧
        (input.metadata = none → t'.metadata = task.metadata) ∧
        (input.plan_id = none → t'.plan_id = task.plan_id) ∧
        (input.task_list_id = none → t'.task_list_id = task.task_list_id) ∧
        (input.status = some .completed → t'.completed_at = some now) ∧
        (input.status ≠ some .completed → t'.completed_at = task.completed_at)) := by
  refine ⟨(updateRun input now id input.version store).1,
    updateTask_success_char hfind input now hver, ?_⟩
  refine ⟨by simp [applyUpdate], rfl, rfl, rfl, rfl, rfl, rfl, rfl, rfl, rfl, rfl,
    ?_, ?_, ?_, ?_, ?_, ?_, ?_, ?_, ?_, ?_, ?_, ?_, ?_, ?_, ?_, ?_⟩
  · intro h; simp [applyUpdate, h]
  · intro v h; simp [applyUpdate, h]
  · intro h; simp [applyUpdate, h]
  · intro v h; simp [applyUpdate, h]
  · intro h; simp [applyUpdate, h]
  · intro v h; simp [applyUpdate, h]
  · intro h; simp [applyUpdate, h]
  · intro v h; simp [applyUpdate, h]
  · intro h; simp [applyUpdate, h]
  · intro v h; simp [applyUpdate, h]
  · intro h; simp [applyUpdate, h]
  · intro h; simp [applyUpdate, h]
  · intro h; simp [applyUpdate, h]
  · intro h; simp [applyUpdate, h]
  · intro h; simp [applyUpdate, h]
  · intro h
    have : ¬ input.status = some TaskStatus.completed := h
    simp [applyUpdate, this]

/-- Witness for C9: patching only the title leaves the other fields alone. -/
theorem updateTask_frame_witness :
    ∃ store', updateTask "a" { title := some "A2", version := 3 } 70
        [{ id := "a", title := "A", description := some "d", version := 3,
           created_at := 10, updated_at := 20 }] =
      (.ok (applyUpdate { title := some "A2", version := 3 } 70
        { id := "a", title := "A", description := some "d", version := 3,
          created_at := 10, updated_at := 20 }), store') ∧
      (applyUpdate { title := some "A2", version := 3 } 70
        { id := "a", title := "A", description := some "d", version := 3,
          created_at := 10, updated_at := 20 }).description = some "d" := by
  obtain ⟨store', hrun, hframe⟩ := updateTask_frame "a" { title := some "A2", version := 3 } 70
    [{ id := "a", title := "A", description := some "d", version := 3,
       created_at := 10, updated_at := 20 }]
    { id := "a", title := "A", description := some "d", version := 3,
      created_at := 10, updated_at := 20 } (by decide) (by decide)
  exact ⟨store', hrun, by decide⟩

/-! ## Lemmas about conditional row updates -/

theorem filter_length_zero_map_noop (p : Task → Bool) (g : Task → Task) (store : Store)
    (h : (store.filter p).length = 0) :
    store.map (fun t => if p t then g t else t) = store := by
  simp only [List.length_eq_zero, List.filter_eq_nil_iff] at h
  have hmap : ∀ t ∈ store, (if p t then g t else t) = t := by
    intro t ht
    simp [h t ht]
  exact (List.map_congr_left hmap).trans (List.map_id' store)

theorem filter_length_ne_zero (p : Task → Bool) {t : Task} {store : Store}
    (hmem : t ∈ store) (hp : p t = true) :
    (store.filter p).length ≠ 0 := by
  simp only [ne_eq, List.length_eq_zero, List.filter_eq_nil_iff]
  intro hall
  exact hall t hmem hp

/-- With unique ids, the only row of the target id is the found row itself,
so a row-level condition failing on it makes the conditional write match
nothing. -/
theorem filter_length_zero_of_nodup {id : String} {store : Store} {task : Task}
    (hnd : (store.map Task.id).Nodup) (hfind : getTask id store = some task)
    (p : Task → Bool) (hp : p task = false) :
    (store.filter (fun t => t.id == id && p t)).length = 0 := by
  obtain ⟨hmem, hid⟩ := getTask_mem hfind
  simp only [List.length_eq_zero, List.filter_eq_nil_iff]
  intro t ht
  by_cases hti : t.id = id
  · have : t = task := List.inj_on_of_nodup_map hnd ht hmem (by rw [hti, hid])
    subst this
    simp [hp]
  · simp [hti]

/-! ## C7: re-locking by the live owner is idempotent and non-refreshing -/

/-- Claim C7.  `lockTask` on a task already locked by the same agent with a
non-expired lease succeeds, changes nothing, and returns the previously
stored `locked_at` unchanged (no lease renewal). -/
theorem lockTask_relock_idempotent (id agentId : String) (now : Int) (store : Store)
    (task : Task) (hfind : getTask id store = some task)
    (hown : task.locked_by = some agentId)
    (hlive : isLockExpired task.locked_at now = false) :
    lockTask id agentId now store =
      (.ok { success := true, locked_by := some agentId, locked_at := task.locked_at }, store) := by
  unfold lockTask
  rw [hfind]
  simp [hown, hlive]

/-- Witness for C7: the stored acquisition time (5) is returned, not the
current clock (100). -/
theorem lockTask_relock_idempotent_witness :
    lockTask "a" "claude" 100
        [{ id := "a", title := "A", locked_by := some "claude", locked_at := some 5,
           created_at := 1, updated_at := 1 }] =
      (.ok { success := true, locked_by := some "claude", locked_at := some 5 },
        [{ id := "a", title := "A", locked_by := some "claude", locked_at := some 5,
           created_at := 1, updated_at := 1 }]) := by
  have h := lockTask_relock_idempotent "a" "claude" 100
    [{ id := "a", title := "A", locked_by := some "claude", locked_at := some 5,
       created_at := 1, updated_at := 1 }]
    { id := "a", title := "A", locked_by := some "claude", locked_at := some 5,
      created_at := 1, updated_at := 1 } (by rfl) (by rfl) (by rfl)
  exact h

/-! ## C5: lock acquisition outcomes -/

/-- Claim C5.  For an existing task, `lockTask` reports success when the task
is unlocked, already held by the requesting agent, or holding an expired
lease (any agent may take over an expired lease); and when a live lease is
held by a (truthy) different owner with unique ids, it returns a structured
`success = false` result naming that owner instead of throwing. -/
theorem lockTask_outcomes (id agentId : String) (now : Int) (store : Store) (task : Task)
    (hfind : getTask id store = some task) :
    (task.locked_by = none →
      ∃ r store', lockTask id agentId now store = (.ok r, store') ∧ r.success = true) ∧
    (task.locked_by = some agentId →
      ∃ r store', lockTask id agentId now store = (.ok r, store') ∧ r.success = true) ∧
    (isLockExpired task.locked_at now = true →
      ∃ r store', lockTask id agentId now store = (.ok r, store') ∧ r.success = true) ∧
    (∀ owner, (store.map Task.id).Nodup → task.locked_by = some owner →
      owner ≠ agentId → owner ≠ "" → isLockExpired task.locked_at now = false →
      lockTask id agentId now store =
        (.ok { success := false, locked_by := some owner, locked_at := task.locked_at,
               error := some s!"Task is locked by {owner}" }, store)) := by
  have hmem := (getTask_mem hfind).1
  have hid := (getTask_mem hfind).2
  refine ⟨?_, ?_, ?_, ?_⟩
  · -- unlocked
    intro hun
    have hcond : lockCondition agentId (lockExpiryCutoff now) task = true := by
      simp [lockCondition, hun]
    have hch := filter_length_ne_zero
      (fun t => t.id == id && lockCondition agentId (lockExpiryCutoff now) t)
      hmem (by simp [hid, hcond])
    refine ⟨{ success := true, locked_by := some agentId, locked_at := some now },
      (lockRun agentId now (lockExpiryCutoff now) id store).1, ?_, rfl⟩
    unfold lockTask
    rw [hfind]
    simp only [hun, lockRun]
    simp [hch]
  · -- held by the requesting agent
    intro hown
    cases hlive : isLockExpired task.locked_at now with
    | false =>
        exact ⟨_, _, lockTask_relock_idempotent id agentId now store task hfind hown hlive, rfl⟩
    | true =>
        have hcond : lockCondition agentId (lockExpiryCutoff now) task = true := by
          simp [lockCondition, hown]
        have hch := filter_length_ne_zero
          (fun t => t.id == id && lockCondition agentId (lockExpiryCutoff now) t)
          hmem (by simp [hid, hcond])
        refine ⟨{ success := true, locked_by := some agentId, locked_at := some now },
          (lockRun agentId now (lockExpiryCutoff now) id store).1, ?_, rfl⟩
        unfold lockTask
        rw [hfind]
        simp only [hown, hlive, lockRun]
        simp [hch]
  · -- expired lease
    intro hexp
    have hfirst : (task.locked_by == some agentId &&
        !isLockExpired task.locked_at now) = false := by
      simp [hexp]
    cases hla : task.locked_at with
    | some la =>
        have hcut : la < lockExpiryCutoff now := by
          have : now - la > lockExpiryMs := by
            simpa [isLockExpired, hla] using hexp
          unfold lockExpiryCutoff
          omega
        have hcond : lockCondition agentId (lockExpiryCutoff now) task = true := by
          simp [lockCondition, hla, hcut]
        have hch := filter_length_ne_zero
          (fun t => t.id == id && lockCondition agentId (lockExpiryCutoff now) t)
          hmem (by simp [hid, hcond])
        refine ⟨{ success := true, locked_by := some agentId, locked_at := some now },
          (lockRun agentId now (lockExpiryCutoff now) id store).1, ?_, rfl⟩
        unfold lockTask
        rw [hfind]
        simp only [hfirst, lockRun]
        simp [hch]
    | none =>
        -- degenerate shape: no timestamp stored; the conditional write may
        -- match nothing, and the re-check then sees an expired lease, so the
        -- source falls through to a success result either way
        cases hch : (store.filter (fun t =>
            t.id == id && lockCondition agentId (lockExpiryCutoff now) t)).length with
        | zero =>
            have hnoop := filter_length_zero_map_noop
              (fun t => t.id == id && lockCondition agentId (lockExpiryCutoff now) t)
              (lockWrite agentId now) store hch
            refine ⟨{ success := true, locked_by := some agentId, locked_at := some now },
              store, ?_, rfl⟩
            unfold lockTask
            rw [hfind]
            simp only [hfirst, Bool.false_and, if_false, lockRun, lockWrite] at *
            rw [hnoop, hch, hfind]
            simp only [if_pos rfl]
            cases hlb : task.locked_by with
            | none => rfl
            | some o =>
                rw [hla] at hexp ⊢
                simp [hexp]
        | succ n =>
            refine ⟨{ success := true, locked_by := some agentId, locked_at := some now },
              (lockRun agentId now (lockExpiryCutoff now) id store).1, ?_, rfl⟩
            unfold lockTask
            rw [hfind]
            simp only [hfirst, lockRun]
            rw [hch]
            simp
  · -- live lease held by another owner: structured failure
    intro owner hnd hown hne hnemp hlive
    have hla : ∃ la, task.locked_at = some la := by
      cases hla : task.locked_at with
      | none => simp [isLockExpired, hla] at hlive
      | some la => exact ⟨la, rfl⟩
    obtain ⟨la, hla⟩ := hla
    have hnocut : ¬ la < lockExpiryCutoff now := by
      have : ¬ now - la > lockExpiryMs := by
        simpa [isLockExpired, hla] using hlive
      unfold lockExpiryCutoff
      omega
    have hcond : lockCondition agentId (lockExpiryCutoff now) task = false := by
      simp [lockCondition, hown, hla, hnocut, hne]
    have hch := filter_length_zero_of_nodup hnd hfind
      (lockCondition agentId (lockExpiryCutoff now)) hcond
    have hnoop := filter_length_zero_map_noop
      (fun t => t.id == id && lockCondition agentId (lockExpiryCutoff now) t)
      (lockWrite agentId now) store (by simpa using hch)
    have hfirst : (task.locked_by == some agentId &&
        !isLockExpired task.locked_at now) = false := by
      simp [hown, hne]
    unfold lockTask
    rw [hfind]
    simp only [hfirst, Bool.false_and, if_false, lockRun, lockWrite] at *
    rw [hnoop]
    simp only [hch, if_pos rfl]
    rw [hfind]
    simp [hown, hnemp, hlive]

/-- Witness for C5: "codex" contends for a task freshly locked by "claude"
and gets the structured failure naming "claude". -/
theorem lockTask_outcomes_witness :
    lockTask "a" "codex" 100
        [{ id := "a", title := "A", locked_by := some "claude", locked_at := some 50,
           created_at := 1, updated_at := 1 }] =
      (.ok { success := false, locked_by := some "claude", locked_at := some 50,
             error := some "Task is locked by claude" },
        [{ id := "a", title := "A", locked_by := some "claude", locked_at := some 50,
           created_at := 1, updated_at := 1 }]) := by
  have h := (lockTask_outcomes "a" "codex" 100
    [{ id := "a", title := "A", locked_by := some "claude", locked_at := some 50,
       created_at := 1, updated_at := 1 }]
    { id := "a", title := "A", locked_by := some "claude", locked_at := some 50,
      created_at := 1, updated_at := 1 } (by rfl)).2.2.2 "claude"
    (by simp) (by rfl) (by decide) (by decide) (by rfl)
  simpa using h

/-! ## C6: `completeTask` -/

/-- Claim C6.  `completeTask(id, agentId?)`: a missing task fails with
`NotFound`; a (truthy) caller blocked by a different live (truthy) lease gets
a `LockError` naming the owner; otherwise the call succeeds, sets status to
`completed`, stamps `completed_at`, clears both lease fields and bumps the
version — and an omitted `agentId` makes the ownership guard false, so the
lease is cleared unconditionally. -/
theorem completeTask_spec (id : String) (agentId : Option String) (now : Int)
    (store : Store) :
    (getTask id store = none →
      completeTask id agentId now store = (.error (.taskNotFound id), store)) ∧
    (∀ task owner a, getTask id store = some task →
      agentId = some a → a ≠ "" → task.locked_by = some owner → owner ≠ "" →
      owner ≠ a → isLockExpired task.locked_at now = false →
      completeTask id agentId now store = (.error (.lockError id owner), store)) ∧
    (∀ task, getTask id store = some task →
      completeGuard agentId task now = false →
      ∃ store', completeTask id agentId now store = (.ok (completeWrite now task), store') ∧
        (completeWrite now task).status = .completed ∧
        (completeWrite now task).completed_at = some now ∧
        (completeWrite now task).locked_by = none ∧
        (completeWrite now task).locked_at = none ∧
        (completeWrite now task).version = task.version + 1 ∧
        (completeWrite now task).updated_at = now) ∧
    (∀ task, agentId = none → completeGuard agentId task now = false) := by
  refine ⟨?_, ?_, ?_, ?_⟩
  · intro hnone
    unfold completeTask
    rw [hnone]
  · intro task owner a hfind ha hane hown howne hdiff hlive
    have hguard : completeGuard agentId task now = true := by
      subst ha
      simp [completeGuard, optStrTruthy, hane, hown, howne, hlive, hdiff]
    unfold completeTask
    rw [hfind]
    simp [hguard, hown]
  · intro task hfind hguard
    have hid := (getTask_mem hfind).2
    have hget : getTask id (store.map (fun t =>
        if t.id == id then completeWrite now t else t)) =
        some (completeWrite now task) := by
      rw [getTask_map_rows id (fun t => t.id == id) (completeWrite now)
        (fun t => rfl) store, hfind]
      simp [hid]
    refine ⟨store.map (fun t => if t.id == id then completeWrite now t else t), ?_,
      rfl, rfl, rfl, rfl, rfl, rfl⟩
    unfold completeTask
    rw [hfind]
    simp only [hguard, Bool.false_eq_true, if_false]
    simp only [completeWrite] at hget ⊢
    rw [hget]
  · intro task hnone
    simp [completeGuard, hnone, optStrTruthy]

/-- Witness for C6: completing with no agent id clears another agent's live
lease. -/
theorem completeTask_spec_witness :
    ∃ store', completeTask "a" none 100
        [{ id := "a", title := "A", status := .in_progress, locked_by := some "claude",
           locked_at := some 50, created_at := 1, updated_at := 1 }] =
      (.ok (completeWrite 100
        { id := "a", title := "A", status := .in_progress, locked_by := some "claude",
          locked_at := some 50, created_at := 1, updated_at := 1 }), store') ∧
      (completeWrite 100
        { id := "a", title := "A", status := .in_progress, locked_by := some "claude",
          locked_at := some 50, created_at := 1, updated_at := 1 }).status = .completed ∧
      (completeWrite 100
        { id := "a", title := "A", status := .in_progress, locked_by := some "claude",
          locked_at := some 50, created_at := 1, updated_at := 1 }).completed_at = some 100 ∧
      (completeWrite 100
        { id := "a", title := "A", status := .in_progress, locked_by := some "claude",
          locked_at := some 50, created_at := 1, updated_at := 1 }).locked_by = none ∧
      (completeWrite 100
        { id := "a", title := "A", status := .in_progress, locked_by := some "claude",
          locked_at := some 50, created_at := 1, updated_at := 1 }).locked_at = none ∧
      (completeWrite 100
        { id := "a", title := "A", status := .in_progress, locked_by := some "claude",
          locked_at := some 50, created_at := 1, updated_at := 1 }).version = 2 ∧
      (completeWrite 100
        { id := "a", title := "A", status := .in_progress, locked_by := some "claude",
          locked_at := some 50, created_at := 1, updated_at := 1 }).updated_at = 100 := by
  obtain ⟨store', hrun, h1, h2, h3, h4, h5, h6⟩ :=
    (completeTask_spec "a" none 100
      [{ id := "a", title := "A", status := .in_progress, locked_by := some "claude",
         locked_at := some 50, created_at := 1, updated_at := 1 }]).2.2.1
      { id := "a", title := "A", status := .in_progress, locked_by := some "claude",
        locked_at := some 50, created_at := 1, updated_at := 1 } (by rfl) (by rfl)
  exact ⟨store', hrun, h1, h2, h3, h4, by simpa using h5, h6⟩

/-! ## C4: the dependency graph guard never admits a cycle -/

theorem mem_successors {edges : EdgeList} {v s : String} :
    s ∈ successors edges v ↔ (v, s) ∈ edges := by
  unfold successors
  simp only [List.mem_map, List.mem_filter, beq_iff_eq]
  constructor
  · rintro ⟨⟨a, b⟩, ⟨hmem, h1⟩, h2⟩
    simp only at h1 h2
    rw [← h1, ← h2]
    exact hmem
  · intro h
    exact ⟨(v, s), ⟨h, rfl⟩, rfl⟩

/-- A path into the target from inside the visited set must leave the visited
set through the queue (the BFS invariant: every successor of a visited node is
visited or queued, and the target is never visited). -/
theorem reach_exit_visited {edges : EdgeList} {target : String}
    {visited queue : List String}
    (hnotTarget : ∀ v ∈ visited, v ≠ target)
    (hclosed : ∀ v ∈ visited, ∀ s, (v, s) ∈ edges → s ∈ visited ∨ s ∈ queue) :
    ∀ x ∈ visited, Relation.ReflTransGen (depStep edges) x target →
      ∃ y ∈ queue, y ∉ visited ∧ Relation.ReflTransGen (depStep edges) y target := by
  intro x hx hpath
  revert hx
  induction hpath using Relation.ReflTransGen.head_induction_on with
  | refl =>
      intro hx
      exact absurd rfl (hnotTarget _ hx)
  | head hstep htail ih =>
      intro hx
      rename_i a c
      rcases hclosed a hx c hstep with hcv | hcq
      · exact ih hcv
      · by_cases hcvis : c ∈ visited
        · exact ih hcvis
        · exact ⟨c, hcq, hcvis, htail⟩

/-- Removing a fresh element from the unvisited remainder strictly shrinks
it (on a duplicate-free universe). -/
theorem filter_not_mem_cons_length {univ visited : List String} {c : String}
    (hnd : univ.Nodup) (hc : c ∈ univ) (hcv : c ∉ visited) :
    (univ.filter (fun x => decide (x ∉ c :: visited))).length <
      (univ.filter (fun x => decide (x ∉ visited))).length := by
  induction univ with
  | nil => cases hc
  | cons u us ih =>
      rw [List.nodup_cons] at hnd
      rcases List.mem_cons.mp hc with rfl | hcu
      · have h1 : (decide (c ∉ c :: visited)) = false := by simp
        have h2 : (decide (c ∉ visited)) = true := by simpa using hcv
        have hmono : (us.filter (fun x => decide (x ∉ c :: visited))).length ≤
            (us.filter (fun x => decide (x ∉ visited))).length := by
          rw [← List.countP_eq_length_filter, ← List.countP_eq_length_filter]
          apply List.countP_mono_left
          intro a _ ha
          simp only [decide_eq_true_eq] at ha ⊢
          exact fun hmem => ha (List.mem_cons_of_mem _ hmem)
        simp only [List.filter_cons, h1, h2, Bool.false_eq_true, if_false, if_true,
          List.length_cons]
        omega
      · have hun : u ≠ c := fun h => hnd.1 (h ▸ hcu)
        by_cases huv : u ∈ visited
        · have h1 : (decide (u ∉ c :: visited)) = false := by
            simp [List.mem_cons, huv]
          have h2 : (decide (u ∉ visited)) = false := by simpa using huv
          simp only [List.filter_cons, h1, h2]
          exact ih hnd.2 hcu
        · have h1 : (decide (u ∉ c :: visited)) = true := by
            simp [List.mem_cons, huv, hun]
          have h2 : (decide (u ∉ visited)) = true := by simpa using huv
          simp only [List.filter_cons, h1, h2, List.length_cons]
          exact Nat.succ_lt_succ (ih hnd.2 hcu)

/-- Completeness of the BFS loop: with the standard invariants and enough
fuel, a queued node that reaches the target makes the loop return `true`. -/
theorem bfsLoop_complete (edges : EdgeList) (target : String) (univ : List String)
    (hnd : univ.Nodup)
    (hpool : ∀ a b, (a, b) ∈ edges → b ∈ univ) :
    ∀ fuel queue visited,
      (∀ v ∈ visited, v ≠ target) →
      (∀ v ∈ visited, ∀ s, (v, s) ∈ edges → s ∈ visited ∨ s ∈ queue) →
      (∀ q ∈ queue, q ∈ univ) →
      (univ.filter (fun x => decide (x ∉ visited))).length < fuel →
      (∃ x ∈ queue, Relation.ReflTransGen (depStep edges) x target) →
      bfsLoop edges target fuel queue visited = true := by
  intro fuel
  induction fuel with
  | zero =>
      intro queue visited _ _ _ hfuel _
      omega
  | succ F ihF =>
      intro queue
      induction queue with
      | nil =>
          intro visited _ _ _ _ hw
          simp at hw
      | cons c rest ihq =>
          intro visited h1 h2 h4 h3 hw
          rw [bfsLoop.eq_def]
          simp only
          by_cases hct : c = target
          · simp [hct]
          · simp only [hct, if_false]
            by_cases hcv : c ∈ visited
            · simp only [hcv, if_true]
              have h2' : ∀ v ∈ visited, ∀ s, (v, s) ∈ edges → s ∈ visited ∨ s ∈ rest := by
                intro v hv s hs
                rcases h2 v hv s hs with hsv | hsq
                · exact Or.inl hsv
                · rcases List.mem_cons.mp hsq with rfl | hsr
                  · exact Or.inl hcv
                  · exact Or.inr hsr
              obtain ⟨x, hxq, hxp⟩ := hw
              rcases List.mem_cons.mp hxq with rfl | hxr
              · obtain ⟨y, hyq, hyv, hyp⟩ := reach_exit_visited h1 h2' x hcv hxp
                exact ihq visited h1 h2' (fun q hq => h4 q (List.mem_cons_of_mem _ hq)) h3
                  ⟨y, hyq, hyp⟩
              · exact ihq visited h1 h2' (fun q hq => h4 q (List.mem_cons_of_mem _ hq)) h3
                  ⟨x, hxr, hxp⟩
            · simp only [hcv, if_false]
              apply ihF
              · intro v hv
                rcases List.mem_cons.mp hv with rfl | hv
                · exact hct
                · exact h1 v hv
              · intro v hv s hs
                rcases List.mem_cons.mp hv with rfl | hv
                · exact Or.inr (List.mem_append_right _ (mem_successors.mpr hs))
                · rcases h2 v hv s hs with hsv | hsq
                  · exact Or.inl (List.mem_cons_of_mem _ hsv)
                  · rcases List.mem_cons.mp hsq with rfl | hsr
                    · exact Or.inl (List.mem_cons_self _ _)
                    · exact Or.inr (List.mem_append_left _ hsr)
              · intro q hq
                rcases List.mem_append.mp hq with hqr | hqs
                · exact h4 q (List.mem_cons_of_mem _ hqr)
                · exact hpool c q (mem_successors.mp hqs)
              · have := filter_not_mem_cons_length hnd (h4 c (List.mem_cons_self _ _)) hcv
                omega
              · obtain ⟨x, hxq, hxp⟩ := hw
                rcases List.mem_cons.mp hxq with rfl | hxr
                · rcases Relation.ReflTransGen.cases_head hxp with rfl | ⟨s, hs, hsp⟩
                  · exact absurd rfl hct
                  · exact ⟨s, List.mem_append_right _ (mem_successors.mpr hs), hsp⟩
                · exact ⟨x, List.mem_append_left _ hxr, hxp⟩

/-- Completeness of `wouldCreateCycle`: an existing path `dependsOn →* taskId`
is always detected. -/
theorem wouldCreateCycle_complete {edges : EdgeList} {taskId dependsOn : String}
    (hreach : Relation.ReflTransGen (depStep edges) dependsOn taskId) :
    wouldCreateCycle taskId dependsOn edges = true := by
  unfold wouldCreateCycle
  apply bfsLoop_complete edges taskId ((dependsOn :: edges.map Prod.snd).dedup)
    (List.nodup_dedup _)
    (fun a b hab => List.mem_dedup.mpr (List.mem_cons_of_mem _ (List.mem_map_of_mem _ hab)))
  · intro v hv
    cases hv
  · intro v hv
    cases hv
  · intro q hq
    rcases List.mem_cons.mp hq with rfl | h
    · exact List.mem_dedup.mpr (List.mem_cons_self _ _)
    · cases h
  · have hlen : ((dependsOn :: edges.map Prod.snd).dedup).length ≤ 1 + edges.length := by
      have := (List.dedup_sublist (dependsOn :: edges.map Prod.snd)).length_le
      simpa [Nat.add_comm] using this
    have : ((dependsOn :: edges.map Prod.snd).dedup.filter
        (fun x => decide (x ∉ ([] : List String)))).length ≤
        ((dependsOn :: edges.map Prod.snd).dedup).length := by
      have := (List.filter_sublist (l := (dependsOn :: edges.map Prod.snd).dedup)
        (p := fun x => decide (x ∉ ([] : List String)))).length_le
      exact this
    omega
  · exact ⟨dependsOn, List.mem_cons_self _ _, hreach⟩

/-- Fact: `wouldCreateCycle(x, x)` is always `true` (the BFS pops `x` first and
immediately reaches the target). -/
theorem wouldCreateCycle_self (x : String) (edges : EdgeList) :
    wouldCreateCycle x x edges = true := by
  unfold wouldCreateCycle
  rw [bfsLoop.eq_def]
  simp

theorem mem_insertEdge {t d a b : String} {edges : EdgeList}
    (h : (a, b) ∈ insertEdge t d edges) : (a, b) ∈ edges ∨ (a = t ∧ b = d) := by
  unfold insertEdge at h
  split at h
  · exact Or.inl h
  · rcases List.mem_append.mp h with h | h
    · exact Or.inl h
    · simp only [List.mem_singleton, Prod.mk.injEq] at h
      exact Or.inr h

/-- A path through the enlarged edge set either avoids the new edge or can be
split at it. -/
theorem transGen_insertEdge_decompose {edges : EdgeList} {t d x y : String}
    (h : Relation.TransGen (depStep (insertEdge t d edges)) x y) :
    Relation.TransGen (depStep edges) x y ∨
      (Relation.ReflTransGen (depStep edges) x t ∧
       Relation.ReflTransGen (depStep edges) d y) := by
  induction h with
  | single hstep =>
      rcases mem_insertEdge hstep with h' | ⟨rfl, rfl⟩
      · exact Or.inl (Relation.TransGen.single h')
      · exact Or.inr ⟨Relation.ReflTransGen.refl, Relation.ReflTransGen.refl⟩
  | tail hxy hstep ih =>
      rcases mem_insertEdge hstep with h' | ⟨rfl, rfl⟩
      · rcases ih with hl | ⟨hxt, hdy⟩
        · exact Or.inl (Relation.TransGen.tail hl h')
        · exact Or.inr ⟨hxt, Relation.ReflTransGen.tail hdy h'⟩
      · rcases ih with hl | ⟨hxt, _⟩
        · exact Or.inr ⟨hl.to_reflTransGen, Relation.ReflTransGen.refl⟩
        · exact Or.inr ⟨hxt, Relation.ReflTransGen.refl⟩

/-- A successful `addDependency` preserves acyclicity. -/
theorem addDependency_preserves_acyclic {taskId dependsOn : String} {store : Store}
    {edges edges' : EdgeList}
    (hacyc : Acyclic edges)
    (hok : addDependency taskId dependsOn store edges = .ok edges') :
    Acyclic edges' := by
  unfold addDependency at hok
  split at hok
  · cases hok
  split at hok
  · cases hok
  split at hok
  · cases hok
  rename_i hcyc
  cases hok
  intro x hx
  rcases transGen_insertEdge_decompose hx with hl | ⟨hxt, hdx⟩
  · exact hacyc x hl
  · exact hcyc (wouldCreateCycle_complete (hdx.trans hxt))

/-- Claim C4.  Replaying any sequence of `addDependency` requests (keeping the
successful insertions) preserves acyclicity; an insertion whose edge would
close a cycle (a path `dependsOn →* taskId` already exists between two
existing tasks) fails with `DependencyCycleError` naming both endpoints; and
`addDependency(x, x)` never succeeds. -/
theorem addDependency_no_cycles :
    (∀ reqs store edges, Acyclic edges → Acyclic (applyDeps reqs store edges)) ∧
    (∀ taskId dependsOn store edges,
      (getTask taskId store).isSome → (getTask dependsOn store).isSome →
      Relation.ReflTransGen (depStep edges) dependsOn taskId →
      addDependency taskId dependsOn store edges =
        .error (.dependencyCycle taskId dependsOn)) ∧
    (∀ x store edges, (addDependency x x store edges).isOk = false) := by
  refine ⟨?_, ?_, ?_⟩
  · intro reqs
    induction reqs with
    | nil => intro store edges h; exact h
    | cons r rs ih =>
        intro store edges h
        unfold applyDeps
        simp only [List.foldl_cons]
        cases hr : addDependency r.1 r.2 store edges with
        | ok edges' => exact ih store edges' (addDependency_preserves_acyclic h hr)
        | error e => exact ih store edges h
  · intro taskId dependsOn store edges h1 h2 hreach
    unfold addDependency
    simp only [Option.isNone_iff_eq_none]
    rw [Option.isSome_iff_ne_none] at h1 h2
    simp [h1, h2, wouldCreateCycle_complete hreach]
  · intro x store edges
    unfold addDependency
    by_cases h1 : (getTask x store).isNone
    · simp [h1, Except.isOk, Except.toBool]
    · simp [h1, wouldCreateCycle_self, Except.isOk, Except.toBool]

/-- Witness for C4: two chained edges plus a closing request reproduce the
spec scenario `addDependency(A, C)` failing with `DependencyCycleError(A, C)`;
and a self-insertion fails.  The store holds tasks a, b, c. -/
theorem addDependency_no_cycles_witness :
    Acyclic (applyDeps [("b", "a"), ("c", "b")]
      [{ id := "a", title := "A", created_at := 1, updated_at := 1 },
       { id := "b", title := "B", created_at := 1, updated_at := 1 },
       { id := "c", title := "C", created_at := 1, updated_at := 1 }] []) ∧
    addDependency "a" "c"
      [{ id := "a", title := "A", created_at := 1, updated_at := 1 },
       { id := "b", title := "B", created_at := 1, updated_at := 1 },
       { id := "c", title := "C", created_at := 1, updated_at := 1 }]
      [("b", "a"), ("c", "b")] = .error (.dependencyCycle "a" "c") ∧
    (addDependency "x" "x" [] []).isOk = false := by
  refine ⟨?_, ?_, addDependency_no_cycles.2.2 "x" [] []⟩
  · apply addDependency_no_cycles.1
    intro x hx
    cases hx with
    | single h => cases h
    | tail h1 h2 => cases h2
  · apply addDependency_no_cycles.2.1 "a" "c"
      [{ id := "a", title := "A", created_at := 1, updated_at := 1 },
       { id := "b", title := "B", created_at := 1, updated_at := 1 },
       { id := "c", title := "C", created_at := 1, updated_at := 1 }]
      [("b", "a"), ("c", "b")] (by rfl) (by rfl)
    exact Relation.ReflTransGen.tail
      (Relation.ReflTransGen.single (show ("c", "b") ∈ [("b", "a"), ("c", "b")] by simp))
      (show ("b", "a") ∈ [("b", "a"), ("c", "b")] by simp)

/-! ## C10: the undocumented 100-row truncation of `listTasks` -/

theorem taskLE_trans (a b c : Task) (h1 : taskLE a b = true) (h2 : taskLE b c = true) :
    taskLE a c = true := by
  unfold taskLE at *
  simp only [Bool.or_eq_true, decide_eq_true_eq, Bool.and_eq_true, beq_iff_eq] at *
  omega

theorem taskLE_total (a b : Task) : (taskLE a b || taskLE b a) = true := by
  unfold taskLE
  simp only [Bool.or_eq_true, decide_eq_true_eq, Bool.and_eq_true, beq_iff_eq]
  omega

/-- Claim C10.  `listTasks` with no `limit` in the filter returns at most 100
rows no matter how many match (the sync engine's own unfiltered calls go
through this same path), and the rows it does return are ordered by the
priority rank (critical, high, medium, low) and then by `created_at`
descending; only an explicit non-zero `limit` changes the cap. -/
theorem listTasks_truncation (filter : TaskFilter) (now : Int) (store : Store)
    (hnolimit : filter.limit = none) :
    (listTasks filter now store).2.length ≤ 100 ∧
    (listTasks filter now store).2.Pairwise (fun a b => taskLE a b = true) := by
  unfold listTasks
  rw [hnolimit]
  dsimp only
  constructor
  · exact List.length_take_le _ _
  · have hsorted := List.sorted_mergeSort taskLE_trans taskLE_total
      ((clearExpiredLocks now store).filter (matchesFilter filter))
    exact List.Pairwise.sublist
      ((List.take_sublist _ _).trans (List.drop_sublist _ _)) hsorted

/-- Witness for C10 on a two-row store: a low-priority newer row sorts after
the critical one, and the count is within the cap. -/
theorem listTasks_truncation_witness :
    (listTasks {} 0
      [{ id := "a", title := "A", priority := .low, created_at := 5, updated_at := 5 },
       { id := "b", title := "B", priority := .critical, created_at := 1, updated_at := 1 }]).2.length ≤ 100 ∧
    (listTasks {} 0
      [{ id := "a", title := "A", priority := .low, created_at := 5, updated_at := 5 },
       { id := "b", title := "B", priority := .critical, created_at := 1, updated_at := 1 }]).2.Pairwise
      (fun a b => taskLE a b = true) :=
  listTasks_truncation {} 0
    [{ id := "a", title := "A", priority := .low, created_at := 5, updated_at := 5 },
     { id := "b", title := "B", priority := .critical, created_at := 1, updated_at := 1 }]
    (by rfl)

/-! ## C8: conflict detection and the bounded conflict log -/

/-- The raw current log `appendSyncConflict` starts from. -/
theorem appendSyncConflict_current (m : Metadata) (c : SyncConflict) :
    appendSyncConflict m c 5 =
      { m with sync_conflicts := some ((c :: m.sync_conflicts.getD []).take 5) } := by
  obtain ⟨cl, sc⟩ := m
  cases sc <;> rfl

/-- Both components of `updateTask`'s post-state. -/
theorem updateTask_store_cases (id : String) (input : UpdateTaskInput) (now : Int)
    (store : Store) :
    (updateTask id input now store).2 = store ∨
    (updateTask id input now store).2 = (updateRun input now id input.version store).1 := by
  unfold updateTask
  cases hfind : getTask id store with
  | none => exact Or.inl rfl
  | some task =>
      by_cases hver : task.version = input.version
      · right
        simp only [hver, ne_eq, not_true_eq_false, if_false, ite_false]
        rcases hur : updateRun input now id input.version store with ⟨s', ch⟩
        simp only [hur]
        cases ch with
        | zero => simp
        | succ n => cases getTask id s' <;> simp
      · exact Or.inl (by simp [hver])

/-- An `updateTask` whose metadata patch (if any) carries the found row's
conflict log unchanged cannot change that row's observed conflict log. -/
theorem syncLog_updateTask (id : String) (input : UpdateTaskInput) (now : Int)
    (store : Store)
    (hmeta : ∀ m, input.metadata = some m →
      ∀ cur, getTask id store = some cur → m.sync_conflicts = cur.metadata.sync_conflicts) :
    syncLog id (updateTask id input now store).2 = syncLog id store := by
  rcases updateTask_store_cases id input now store with h | h
  · rw [h]
  · rw [h]
    unfold syncLog
    unfold updateRun
    rw [getTask_map_rows id _ _ (fun t => applyUpdate_id input now t) store]
    cases hfind : getTask id store with
    | none => rfl
    | some cur =>
        simp only [Option.map, Function.comp]
        split
        · cases hm : input.metadata with
          | none => simp [applyUpdate, hm]
          | some m => simp [applyUpdate, hm, hmeta m hm cur hfind]
        · rfl

/-- A push iteration over a task with no mirror counterpart never touches
that task's conflict log (the mapping write preserves `sync_conflicts`). -/
theorem pushStep_syncLog_not_found (existingMap : List (String × ClaudeTask × Option Int))
    (prefer : SyncPrefer) (prefixConfig : Option TaskPrefixConfig) (now : Int)
    (st : PushState) (task : Task)
    (hlk : lookupExisting existingMap task.id = none) :
    syncLog task.id (pushStep existingMap prefer prefixConfig now st task).store =
      syncLog task.id st.store := by
  unfold pushStep
  rw [hlk]
  cases hcur : getTask task.id st.store with
  | none => simp [hcur]
  | some current =>
      simp only [hcur]
      have hlog := syncLog_updateTask task.id
        { version := current.version
          metadata := some { current.metadata with
            claude_task_id := some (toString st.hwm) } } now st.store
        (by
          intro m hm cur hcur'
          cases hm
          rw [hcur] at hcur'
          cases hcur'
          rfl)
      rcases hupd : updateTask task.id
        { version := current.version
          metadata := some { current.metadata with
            claude_task_id := some (toString st.hwm) } } now st.store with ⟨res, snd⟩
      rw [hupd] at hlog
      cases res <;> simpa using hlog

/-- A push iteration over a mirrored task with the double-change condition
false never touches the local table at all. -/
theorem pushStep_store_no_conflict (existingMap : List (String × ClaudeTask × Option Int))
    (prefer : SyncPrefer) (prefixConfig : Option TaskPrefixConfig) (now : Int)
    (st : PushState) (task : Task) (ct : ClaudeTask) (mtime : Option Int)
    (hlk : lookupExisting existingMap task.id = some (ct, mtime))
    (hdet : syncConflictDetected ct.metadata.todos_updated_at
      (some task.updated_at) mtime = false) :
    (pushStep existingMap prefer prefixConfig now st task).store = st.store := by
  unfold pushStep
  rw [hlk]
  simp only [hdet, Bool.false_and, Bool.false_eq_true, if_false, ite_false]

/-- Claim C8.  `appendSyncConflict` prepends the new entry (newest first) and
trims to 5 (so one detected conflict adds exactly one entry when below
capacity and the log never exceeds 5); and a push-pass iteration changes the
processed task's conflict log only when the record has a mirror counterpart
and both sides changed since the last-synced timestamp. -/
theorem syncConflict_log_bounded :
    (∀ (m : Metadata) (c : SyncConflict),
      (appendSyncConflict m c 5).sync_conflicts =
        some ((c :: m.sync_conflicts.getD []).take 5)) ∧
    (∀ (m : Metadata) (c : SyncConflict),
      ((appendSyncConflict m c 5).sync_conflicts.getD []).length ≤ 5) ∧
    (∀ (m : Metadata) (c : SyncConflict),
      (m.sync_conflicts.getD []).length ≤ 4 →
      (appendSyncConflict m c 5).sync_conflicts = some (c :: m.sync_conflicts.getD [])) ∧
    (∀ existingMap prefer prefixConfig (now : Int) (st : PushState) (task : Task),
      syncLog task.id (pushStep existingMap prefer prefixConfig now st task).store ≠
        syncLog task.id st.store →
      ∃ ct mtime, lookupExisting existingMap task.id = some (ct, mtime) ∧
        syncConflictDetected ct.metadata.todos_updated_at (some task.updated_at) mtime
          = true) := by
  refine ⟨?_, ?_, ?_, ?_⟩
  · intro m c
    rw [appendSyncConflict_current]
  · intro m c
    rw [appendSyncConflict_current]
    simp [List.length_take_le]
  · intro m c hlen
    rw [appendSyncConflict_current]
    have : (c :: m.sync_conflicts.getD []).length ≤ 5 := by
      simp only [List.length_cons]
      omega
    rw [List.take_of_length_le this]
  · intro existingMap prefer prefixConfig now st task hne
    cases hlk : lookupExisting existingMap task.id with
    | none =>
        exact absurd (pushStep_syncLog_not_found existingMap prefer prefixConfig now st task hlk)
          hne
    | some pair =>
        obtain ⟨ct, mtime⟩ := pair
        by_cases hdet : syncConflictDetected ct.metadata.todos_updated_at
            (some task.updated_at) mtime = true
        · exact ⟨ct, mtime, rfl, hdet⟩
        · rw [Bool.not_eq_true] at hdet
          exact absurd (by
            rw [pushStep_store_no_conflict existingMap prefer prefixConfig now st task
              ct mtime hlk hdet]) hne

/-- Witness for C8: a record changed on both sides (last synced at 1000,
local edited at 2000, mirror file touched at 1500) makes the push pass record
a conflict, and the theorem locates the mirror counterpart and the
double-change condition. -/
theorem syncConflict_log_bounded_witness :
    ∃ ct mtime,
      lookupExisting [("a",
        ({ id := "1"
           subject := "A"
           description := ""
           activeForm := ""
           status := .pending
           owner := ""
           blocks := []
           blockedBy := []
           metadata := { todos_id := some "a", todos_updated_at := some 1000 } } : ClaudeTask),
        some 1500)] "a" = some (ct, mtime) ∧
      syncConflictDetected ct.metadata.todos_updated_at (some (2000 : Int)) mtime = true := by
  have h := syncConflict_log_bounded.2.2.2
    [("a",
      ({ id := "1"
         subject := "A"
         description := ""
         activeForm := ""
         status := .pending
         owner := ""
         blocks := []
         blockedBy := []
         metadata := { todos_id := some "a", todos_updated_at := some 1000 } } : ClaudeTask),
      some 1500)]
    SyncPrefer.preferRemote none 3000
    { files := []
      store := [{ id := "a", title := "A", created_at := 1, updated_at := 2000 }]
      hwm := 1
      prefixCounter := 0
      pushed := 0
      errors := [] }
    { id := "a", title := "A", created_at := 1, updated_at := 2000 }
    (by decide)
  simpa using h

/-! ## C1: re-running the push pass on an unchanged state -/

theorem writeClaudeTask_names (now : Int) (files : List MirrorFile) (ct : ClaudeTask)
    (h : ct.id ∈ files.map MirrorFile.name) :
    (writeClaudeTask now files ct).map MirrorFile.name = files.map MirrorFile.name := by
  unfold writeClaudeTask
  obtain ⟨f, hf, hname⟩ := List.mem_map.mp h
  have hany : files.any (fun f => f.name == ct.id) = true := by
    rw [List.any_eq_true]
    exact ⟨f, hf, by simp [hname]⟩
  rw [if_pos hany, List.map_map]
  apply List.map_congr_left
  intro g _
  by_cases hg : g.name = ct.id
  · simp [Function.comp, hg]
  · simp [Function.comp, hg]

/-- A push iteration over a task whose mirror record still carries the task's
current `updated_at` as the last-synced stamp (nothing changed locally since
the previous sync) rewrites the mapped mirror file in place and counts it. -/
theorem pushStep_synced (existingMap : List (String × ClaudeTask × Option Int))
    (prefer : SyncPrefer) (prefixConfig : Option TaskPrefixConfig) (now : Int)
    (st : PushState) (task : Task) (ct : ClaudeTask) (mtime : Option Int)
    (hlk : lookupExisting existingMap task.id = some (ct, mtime))
    (hsync : ct.metadata.todos_updated_at = some task.updated_at) :
    pushStep existingMap prefer prefixConfig now st task =
      { st with
        files := writeClaudeTask now st.files
          { taskToClaudeTask task ct.id (some ct.metadata) with
            blocks := ct.blocks
            blockedBy := ct.blockedBy
            activeForm := ct.activeForm }
        pushed := st.pushed + 1 } := by
  have hdet : syncConflictDetected ct.metadata.todos_updated_at
      (some task.updated_at) mtime = false := by
    rw [hsync]
    simp [syncConflictDetected]
  unfold pushStep
  rw [hlk]
  simp only [hdet, Bool.false_and, Bool.false_eq_true, if_false, ite_false]

/-- The push loop over tasks that are all mirrored and locally unchanged:
every record is rewritten in place (no new file name), the local table, the
high-water mark, the prefix counter and the error list are untouched, and
`pushed` counts every processed task. -/
theorem pushFold_synced (existingMap : List (String × ClaudeTask × Option Int))
    (prefer : SyncPrefer) (prefixConfig : Option TaskPrefixConfig) (now : Int)
    (names : List String) :
    ∀ (tasks : List Task) (st : PushState),
      st.files.map MirrorFile.name = names →
      (∀ t ∈ tasks, ∃ ct mtime,
        lookupExisting existingMap t.id = some (ct, mtime) ∧
        ct.metadata.todos_updated_at = some t.updated_at ∧ ct.id ∈ names) →
      ((tasks.foldl (pushStep existingMap prefer prefixConfig now) st).files.map
          MirrorFile.name = names ∧
        (tasks.foldl (pushStep existingMap prefer prefixConfig now) st).store = st.store ∧
        (tasks.foldl (pushStep existingMap prefer prefixConfig now) st).pushed =
          st.pushed + tasks.length ∧
        (tasks.foldl (pushStep existingMap prefer prefixConfig now) st).errors = st.errors ∧
        (tasks.foldl (pushStep existingMap prefer prefixConfig now) st).hwm = st.hwm ∧
        (tasks.foldl (pushStep existingMap prefer prefixConfig now) st).prefixCounter =
          st.prefixCounter) := by
  intro tasks
  induction tasks with
  | nil =>
      intro st hnames _
      exact ⟨hnames, rfl, rfl, rfl, rfl, rfl⟩
  | cons t ts ih =>
      intro st hnames hall
      obtain ⟨ct, mtime, hlk, hsync, hmemname⟩ := hall t (List.mem_cons_self _ _)
      have hstep := pushStep_synced existingMap prefer prefixConfig now st t ct mtime hlk hsync
      have hupdatedId : ({ taskToClaudeTask t ct.id (some ct.metadata) with
          blocks := ct.blocks
          blockedBy := ct.blockedBy
          activeForm := ct.activeForm } : ClaudeTask).id = ct.id := rfl
      have hnames' : (writeClaudeTask now st.files
          { taskToClaudeTask t ct.id (some ct.metadata) with
            blocks := ct.blocks
            blockedBy := ct.blockedBy
            activeForm := ct.activeForm }).map MirrorFile.name = names := by
        rw [writeClaudeTask_names]
        · exact hnames
        · rw [hupdatedId, hnames]
          exact hmemname
      simp only [List.foldl_cons, hstep]
      have := ih { st with
          files := writeClaudeTask now st.files
            { taskToClaudeTask t ct.id (some ct.metadata) with
              blocks := ct.blocks
              blockedBy := ct.blockedBy
              activeForm := ct.activeForm }
          pushed := st.pushed + 1 }
        hnames' (fun x hx => hall x (List.mem_cons_of_mem _ hx))
      obtain ⟨h1, h2, h3, h4, h5, h6⟩ := this
      refine ⟨h1, h2, ?_, h4, h5, h6⟩
      rw [h3]
      simp only [List.length_cons]
      omega

/-- Entries of the `todos_id` index all come from the directory's files. -/
theorem mem_buildExistingByTodosId {files : List MirrorFile}
    {e : String × ClaudeTask × Option Int} (h : e ∈ buildExistingByTodosId files) :
    ∃ f ∈ files, e.2.1 = f.ct ∧ e.2.2 = f.mtimeMs := by
  have haux : ∀ (fs : List MirrorFile) (acc : List (String × ClaudeTask × Option Int)),
      e ∈ fs.foldl (fun acc mf =>
        match mf.ct.metadata.todos_id with
        | some tid => if tid = "" then acc else (tid, mf.ct, mf.mtimeMs) :: acc
        | none => acc) acc →
      e ∈ acc ∨ ∃ f ∈ fs, e.2.1 = f.ct ∧ e.2.2 = f.mtimeMs := by
    clear h
    intro fs
    induction fs with
  | nil =>
      intro acc h
      exact Or.inl h
  | cons mf mfs ih =>
      intro acc h
      simp only [List.foldl_cons] at h
      rcases ih _ h with hacc | hrest
      · cases htid : mf.ct.metadata.todos_id with
        | none =>
            rw [htid] at hacc
            exact Or.inl hacc
        | some tid =>
            rw [htid] at hacc
            by_cases hemp : tid = ""
            · exact Or.inl (by simpa [hemp] using hacc)
            · have hacc' : e ∈ (tid, mf.ct, mf.mtimeMs) :: acc := by
                simpa [hemp] using hacc
              rcases List.mem_cons.mp hacc' with rfl | hacc''
              · exact Or.inr ⟨mf, List.mem_cons_self _ _, rfl, rfl⟩
              · exact Or.inl hacc''
      · obtain ⟨f, hf, hfe⟩ := hrest
        exact Or.inr ⟨f, List.mem_cons_of_mem _ hf, hfe⟩
  unfold buildExistingByTodosId at h
  rcases haux files [] h with habs | hgoal
  · cases habs
  · exact hgoal

theorem lookupExisting_mem {m : List (String × ClaudeTask × Option Int)} {id : String}
    {ct : ClaudeTask} {mtime : Option Int}
    (h : lookupExisting m id = some (ct, mtime)) :
    ∃ e ∈ m, e.2 = (ct, mtime) := by
  unfold lookupExisting at h
  cases hf : m.find? (fun e => e.1 == id) with
  | none => rw [hf] at h; cases h
  | some e =>
      rw [hf] at h
      refine ⟨e, List.mem_of_find?_eq_some hf, ?_⟩
      simpa using h

/-- The rows `listTasks` hands the push pass in the sample state: exactly the
one (unchanged, mirrored) task. -/
theorem listTasks_sample :
    listTasks { project_id := none } 2000 sampleStore = (sampleStore, [sampleTask]) := by
  have hswept : clearExpiredLocks 2000 sampleStore = sampleStore := by decide
  have hmatch : sampleStore.filter (matchesFilter { project_id := none }) = [sampleTask] := by
    decide
  unfold listTasks
  simp only [hswept, hmatch, List.mergeSort_singleton]
  rfl

/-- The claim "repeating the push with no changes reports `pushed = 0`" is
false on the code: in the fully synchronized sample state (mirror record
`1.json` carries `todos_id = "a"` and last-synced stamp 1000 equal to the
local `updated_at`; the file was last written at 1500; the clock reads 2000)
the pass rewrites the mapped file in place and reports `pushed = 1`, not 0. -/
theorem push_unchanged_counterexample :
    (pushToClaudeTaskList none none none 2000 sampleDir sampleStore).1.pushed = 1 ∧
    (pushToClaudeTaskList none none none 2000 sampleDir sampleStore).1.pushed ≠ 0 := by
  have hpush : (pushToClaudeTaskList none none none 2000 sampleDir sampleStore).1.pushed = 1 := by
    unfold pushToClaudeTaskList
    rw [listTasks_sample]
    decide
  exact ⟨hpush, by rw [hpush]; decide⟩

/-- Claim C1 (amended).  When every listed task is already mirrored and locally
unchanged since the previous sync (its mirror record's last-synced stamp
equals its current `updated_at`), re-running the push pass creates no new
mirror file (every mapped record is rewritten in place under its existing
name), reports no errors and `pulled = 0`, and leaves the local table exactly
as the listing pass left it — but `pushed` equals the number of listed tasks,
not 0. -/
theorem pushToClaudeTaskList_unchanged (projectId : Option String)
    (preferOpt : Option SyncPrefer) (prefixConfig : Option TaskPrefixConfig)
    (now : Int) (dir : MirrorDir) (store : Store)
    (H1 : ∀ t ∈ (listTasks { project_id := projectId } now store).2, ∃ ct mtime,
      lookupExisting (buildExistingByTodosId dir.files) t.id = some (ct, mtime) ∧
      ct.metadata.todos_updated_at = some t.updated_at)
    (H2 : ∀ f ∈ dir.files, f.name = f.ct.id) :
    (pushToClaudeTaskList projectId preferOpt prefixConfig now dir store).1 =
      { pushed := (listTasks { project_id := projectId } now store).2.length
        pulled := 0
        errors := [] } ∧
    (pushToClaudeTaskList projectId preferOpt prefixConfig now dir store).2.1.files.map
      MirrorFile.name = dir.files.map MirrorFile.name ∧
    (pushToClaudeTaskList projectId preferOpt prefixConfig now dir store).2.2 =
      (listTasks { project_id := projectId } now store).1 := by
  rcases hls : listTasks { project_id := projectId } now store with ⟨store₁, tasks⟩
  rw [hls] at H1
  simp only at H1
  have Hall : ∀ t ∈ tasks, ∃ ct mtime,
      lookupExisting (buildExistingByTodosId dir.files) t.id = some (ct, mtime) ∧
      ct.metadata.todos_updated_at = some t.updated_at ∧
      ct.id ∈ dir.files.map MirrorFile.name := by
    intro t ht
    obtain ⟨ct, mtime, hlk, hsync⟩ := H1 t ht
    refine ⟨ct, mtime, hlk, hsync, ?_⟩
    obtain ⟨e, hemem, he2⟩ := lookupExisting_mem hlk
    obtain ⟨f, hf, hct, _⟩ := mem_buildExistingByTodosId hemem
    rw [he2] at hct
    simp only at hct
    rw [hct, ← H2 f hf]
    exact List.mem_map_of_mem _ hf
  obtain ⟨h1, h2, h3, h4, h5, h6⟩ := pushFold_synced (buildExistingByTodosId dir.files)
    (preferOpt.getD .preferRemote) prefixConfig now (dir.files.map MirrorFile.name)
    tasks
    { files := dir.files
      store := store₁
      hwm := readHighWaterMark dir
      prefixCounter := match prefixConfig with
        | some cfg =>
            match cfg.start_from with
            | some sf =>
                if sf ≠ 0 && (match prefixConfig with
                  | some _ => readPrefixCounter dir
                  | none => 0) < sf then sf - 1
                else (match prefixConfig with
                  | some _ => readPrefixCounter dir
                  | none => 0)
            | none => match prefixConfig with
                | some _ => readPrefixCounter dir
                | none => 0
        | none => match prefixConfig with
            | some _ => readPrefixCounter dir
            | none => 0
      pushed := 0
      errors := [] }
    rfl Hall
  unfold pushToClaudeTaskList
  rw [hls]
  dsimp only
  refine ⟨?_, ?_, ?_⟩
  · rw [h3, h4]
    simp
  · rw [h1]
  · rw [h2]

/-- Witness for the amended C1 at the sample state: one listed task,
`pushed = 1`, no error, the single mirror file name `"1"` unchanged. -/
theorem pushToClaudeTaskList_unchanged_witness :
    (pushToClaudeTaskList none none none 2000 sampleDir sampleStore).1 =
      { pushed := (listTasks { project_id := none } 2000 sampleStore).2.length
        pulled := 0
        errors := [] } ∧
    (pushToClaudeTaskList none none none 2000 sampleDir sampleStore).2.1.files.map
      MirrorFile.name = sampleDir.files.map MirrorFile.name := by
  have h := pushToClaudeTaskList_unchanged none none none 2000 sampleDir sampleStore
    (by
      intro t ht
      rw [listTasks_sample] at ht
      simp only [List.mem_singleton] at ht
      subst ht
      exact ⟨sampleCt, some 1500, by decide, by decide⟩)
    (by decide)
  exact ⟨h.1, h.2.1⟩

end Todos
